import Mathlib

set_option maxHeartbeats 1000000

/-
Shallow embedding of the efficient-RANSAC shape-detection driver of
`Shape_detection_3.h` (class `CGAL::Shape_detection_3`).  Number types (the
kernel field type `FT`) are embedded as rationals, machine integers as `Nat`
and `Int`.  The two headers `Octree.h` and `Shape_base.h` that the driver
includes are not part of the sources; every operation taken from them is
modelled from the specification and carries a doc comment saying so.  All
other definitions are translated from `Shape_detection_3.h` directly.
-/

namespace CGAL

/-- Detection parameters, struct `Shape_detection_3::Parameters`
(`Shape_detection_3.h`, lines 110-116). -/
structure Parameters where
  probability : ℚ
  min_points : ℕ
  epsilon : ℚ
  normal_threshold : ℚ
  cluster_epsilon : ℚ

/-- Overlook (stop) probability, `Shape_detection_3::StopProbability`
(lines 617-619): `min(pow(1 - sizeC / (np * l * 3), dC), 1)`.  The
drawn-candidate count passed for `dC` is an integer at every call site, so the
exponent is embedded as a natural number. -/
def StopProbability (sizeC np : ℚ) (dC : ℕ) (l : ℚ) : ℚ :=
  min ((1 - sizeC / (np * l * 3)) ^ dC) 1

/-- The overlook-probability formula exactly as the specification writes it:
`overlook(c, P, d, L) = min(1, (1 - c / (3 P L))^d)`. -/
def overlookSpec (c P : ℚ) (d : ℕ) (L : ℚ) : ℚ :=
  min 1 ((1 - c / (3 * P * L)) ^ d)

/-- Number of subsets `m_num_subsets` (constructor, line 180):
`max(floor(log(N) / log(2)) - 9, 2)`. -/
def numSubsets (N : ℕ) : ℕ := max (Nat.log 2 N - 9) 2

/-- One stage of subset generation (constructor, lines 190-209).  The source
picks, for `i < remainingPoints / 2`, the element at position
`(rng() % 2) + (i << 1)` (the clamp to `remainingPoints - 1` never fires, see
`pick_index_lt` below) and swaps the picked elements to the end of the array.
Position-wise the picked elements are one element out of each adjacent pair of
the remaining range, so the split is computed pairwise: the first component is
the picked subset, the second the remaining points (an odd trailing element
always remains). -/
def pickPairs (bits : ℕ → Bool) : ℕ → List α → List α × List α
  | i, a :: b :: rest =>
    let pq := pickPairs bits (i + 1) rest
    if bits i then (b :: pq.1, a :: pq.2) else (a :: pq.1, b :: pq.2)
  | _, l => ([], l)

/-- Subset-ladder construction (constructor, lines 184-220): stages
`s = K-1, ..., 1` each pick about half of the still-remaining points as subset
`s` and continue on the rest; subset `0` receives all remaining points.  The
result lists subset 0 first, subset `K-1` last; `bits s i` stands for the
`rng() % 2` draw of stage `s`, iteration `i`. -/
def buildLadder (bits : ℕ → ℕ → Bool) : ℕ → List α → List (List α)
  | 0, l => [l]
  | s + 1, l =>
    let pq := pickPairs (bits (s + 1)) 0 l
    buildLadder bits s pq.2 ++ [pq.1]

/-- The subset sizes the construction produces, as a recurrence on the
remaining-point count: stage `s + 1` takes `r / 2` points, the rest go on to
the lower stages, stage 0 keeps the remainder. -/
def ladderSizes : ℕ → ℕ → List ℕ
  | 0, r => [r]
  | s + 1, r => ladderSizes s (r - r / 2) ++ [r / 2]

/-- A fitted shape hypothesis as the driver sees it through the shape-kind
plug-in contract: per point index, the signed distance to the fitted surface,
the normal deviation, and the parametric coordinates used by the
connected-component filter.  The fitting math itself is external (the spec
delegates it to shape-kind plug-ins). -/
structure ShapeFit where
  sdist : ℕ → ℚ
  sdev : ℕ → ℚ
  spar : ℕ → ℚ × ℚ

/-- Point-versus-candidate test of the octree score walk.  Modelled from the
spec: `Octree.h` is not under `src`; spec section 4.1 requires `score` to test
each unassigned point against the distance and the normal-deviation
predicates. -/
def octMatch (shapeIndex : List ℤ) (f : ShapeFit) (eps tau : ℚ) (i : ℕ) : Bool :=
  shapeIndex.getD i (-1) == -1 && decide (|f.sdist i| ≤ eps) && decide (f.sdev i ≤ tau)

/-- Octree scoring.  Modelled from the spec: `Octree.h` is not under `src`;
spec section 4.1: walk the tree, skip leaves further than `eps` from the
candidate, and return the unassigned points matching the candidate within
`eps` and `tau` (the cell-pruning walk returns exactly the matching points of
the covered point set, embedded here as an index list). -/
def octreeScore (pts : List ℕ) (shapeIndex : List ℤ) (f : ShapeFit) (eps tau : ℚ) :
    List ℕ :=
  pts.filter (octMatch shapeIndex f eps tau)

/-- Grid cell of a parametric point, side `kappa`.  Modelled from the spec
(section 4.6). -/
def cellOf (kappa : ℚ) (uv : ℚ × ℚ) : ℤ × ℤ := (⌊uv.1 / kappa⌋, ⌊uv.2 / kappa⌋)

/-- Eight-neighbourhood of grid cells (a cell is adjacent to itself and its
eight neighbours).  Modelled from the spec (section 4.6). -/
def cellAdj (a b : ℤ × ℤ) : Bool :=
  decide ((a.1 - b.1).natAbs ≤ 1) && decide ((a.2 - b.2).natAbs ≤ 1)

/-- Closure of one connected component of occupied cells, by repeatedly moving
every remaining cell adjacent to the component into it. -/
def growComp : ℕ → List (ℤ × ℤ) → List (ℤ × ℤ) → List (ℤ × ℤ)
  | 0, comp, _ => comp
  | fuel + 1, comp, rest =>
    let newly := rest.filter (fun c => comp.any (fun d => cellAdj c d))
    if newly.isEmpty then comp
    else growComp fuel (comp ++ newly)
      (rest.filter (fun c => !comp.any (fun d => cellAdj c d)))

/-- The connected components of a list of occupied grid cells. -/
def components : ℕ → List (ℤ × ℤ) → List (List (ℤ × ℤ))
  | 0, _ => []
  | _ + 1, [] => []
  | fuel + 1, c :: rest =>
    let comp := growComp (rest.length + 1) [c] rest
    comp :: components fuel (rest.filter (fun x => !comp.contains x))

/-- The largest of a list of components. -/
def largestComp (ls : List (List (ℤ × ℤ))) : List (ℤ × ℤ) :=
  ls.foldl (fun acc c => if acc.length < c.length then c else acc) []

/-- Connected-component filter, `Shape_base::connected_component` as used on
line 373.  Modelled from the spec: `Shape_base.h` is not under `src`; spec
section 4.6: bin the matched points into a 2-D grid of side `cluster_epsilon`
through the parametric coordinates, connect occupied cells under the
8-neighbourhood, and keep only the indices lying in the largest connected
component.  (The source also passes the octree center and width, which only
fix the grid origin.) -/
def connected_component (kappa : ℚ) (f : ShapeFit) (indices : List ℕ) : List ℕ :=
  let cells := (indices.map (fun i => cellOf kappa (f.spar i))).dedup
  let comp := largestComp (components cells.length cells)
  indices.filter (fun i => comp.contains (cellOf kappa (f.spar i)))

/-- A candidate under evaluation: the fields of `Shape_base` the driver reads
and writes (`m_score`, `m_nb_subset_used`, `m_indices` and the three bound
values). -/
structure Candidate where
  cfit : ShapeFit
  score : ℕ
  nbSubsetUsed : ℕ
  indices : List ℕ
  minB : ℚ
  maxB : ℚ
  expected : ℚ

/-- Bound computation, `Shape_base::compute_bound`, for a candidate whose
matched count was collected over `S` of the `P` available points.  Modelled
from the spec: `Shape_base.h` is not under `src`; spec section 4.4 fixes the
point estimate `expected = matched * P / S` and otherwise only requires some
monotone-in-`S` hypergeometric-style interval containing `expected` that
collapses at `S = P` (the concrete formula is explicitly not part of the
contract); the exact-counting interval `[matched, matched + (P - S)]` is the
tightest such certain interval and is the one modelled here. -/
def compute_bound (S P : ℕ) (c : Candidate) : Candidate :=
  { c with expected := (c.score : ℚ) * P / S
         , minB := (c.score : ℚ)
         , maxB := (c.score : ℚ) + ((P : ℚ) - (S : ℚ)) }

/-- Candidate update after a commit, `Shape_base::update_points` as used on
line 435.  Modelled from the spec: `Shape_base.h` is not under `src`; spec
section 4.7 step 4: drop the indices that are now assigned; the score becomes
the number of remaining indices. -/
def update_points (shapeIndex : List ℤ) (c : Candidate) : Candidate :=
  { c with indices := c.indices.filter (fun i => shapeIndex.getD i (-1) == -1)
         , score := (c.indices.filter (fun i => shapeIndex.getD i (-1) == -1)).length }

/-- One pass of the do-while body of `improveBound` (lines 599-605): score the
next subset on its direct octree (tolerance `epsilon`, `normal_threshold`),
add the score, append the matched indices, advance `m_nb_subset_used`. -/
def advanceOne (ladder : List (List ℕ)) (shapeIndex : List ℤ) (eps tau : ℚ)
    (c : Candidate) : Candidate :=
  { c with
    score := c.score +
      (octreeScore (ladder.getD c.nbSubsetUsed []) shapeIndex c.cfit eps tau).length
    indices := c.indices ++
      octreeScore (ladder.getD c.nbSubsetUsed []) shapeIndex c.cfit eps tau
    nbSubsetUsed := c.nbSubsetUsed + 1 }

/-- Inner do-while of `improveBound` (lines 598-606): run `advanceOne` at
least once and repeat while fewer than `min_points` subset points were sampled
and subsets remain.  `availSizes` is `m_availableOctreeSizes`; the fuel is
structural only, `K` suffices at every call site since `m_nb_subset_used`
strictly increases up to `K`. -/
def scoreLoop (ladder : List (List ℕ)) (availSizes : List ℕ) (shapeIndex : List ℤ)
    (eps tau : ℚ) (K minPts : ℕ) :
    ℕ → Candidate → ℕ → ℕ → Candidate × ℕ
  | 0, c, numEval, _ => (c, numEval)
  | fuel + 1, c, numEval, newSampled =>
    if newSampled + availSizes.getD c.nbSubsetUsed 0 < minPts ∧ c.nbSubsetUsed + 1 < K
    then
      scoreLoop ladder availSizes shapeIndex eps tau K minPts fuel
        (advanceOne ladder shapeIndex eps tau c)
        (numEval + availSizes.getD c.nbSubsetUsed 0)
        (newSampled + availSizes.getD c.nbSubsetUsed 0)
    else (advanceOne ladder shapeIndex eps tau c,
      numEval + availSizes.getD c.nbSubsetUsed 0)

/-- `Shape_detection_3::improveBound` (lines 575-615): unless the candidate
has already used `max_subset` (or all `K`) subsets, score further subsets
(at least one, and until `min_points` points were sampled), overwrite the
score with the accumulated matched-index count (line 608), and recompute the
bounds against the number of points evaluated and the `SizeP` available
points.  Returns the updated candidate and whether a refinement happened.
The line-585 clamp is the identity under the entry guards. -/
def improveBound (ladder : List (List ℕ)) (availSizes : List ℕ) (shapeIndex : List ℤ)
    (eps tau : ℚ) (K : ℕ) (c : Candidate) (SizeP maxSubset minPts : ℕ) :
    Candidate × Bool :=
  if maxSubset ≤ c.nbSubsetUsed then (c, false)
  else if K ≤ c.nbSubsetUsed then (c, false)
  else
    let r := scoreLoop ladder availSizes shapeIndex eps tau K minPts K c
      ((availSizes.take c.nbSubsetUsed).sum) 0
    let c2 := { r.1 with score := r.1.indices.length }
    (compute_bound r.2 SizeP c2, true)

/-- Helper: the per-subset counts of unassigned points under a given
assignment map — the invariant value of `m_availableOctreeSizes`. -/
def availOf (shapeIndex : List ℤ) (ladder : List (List ℕ)) : List ℕ :=
  ladder.map (fun sub => (sub.filter (fun i => shapeIndex.getD i (-1) == -1)).length)

/-- Helper: a candidate whose score and matched-index list are exactly the
accumulated octree scores of the first `m_nb_subset_used` subsets under the
current assignment map (the state `improveBound` maintains). -/
def Tracks (ladder : List (List ℕ)) (shapeIndex : List ℤ) (eps tau : ℚ)
    (c : Candidate) : Prop :=
  c.score = c.indices.length ∧
  c.indices = ((ladder.take c.nbSubsetUsed).flatten).filter
    (octMatch shapeIndex c.cfit eps tau)

/-- A three-point, two-subset example configuration used by the closed
witnesses below. -/
def exLadder : List (List ℕ) := [[0], [1, 2]]

/-- Example assignment map: all three points unassigned. -/
def exShapeIndex : List ℤ := [-1, -1, -1]

/-- Example shape fit matching every point exactly (zero distance and
deviation, all points in one parametric cell). -/
def exFit : ShapeFit :=
  { sdist := fun _ => 0, sdev := fun _ => 0, spar := fun _ => (0, 0) }

/-- Example candidate that has inspected subset 0 of `exLadder`. -/
def exCand : Candidate :=
  { cfit := exFit, score := 1, nbSubsetUsed := 1, indices := [0]
  , minB := 1, maxB := 3, expected := 3 }

/-- Environment fixed during one `detect` call: input size
`m_numAvailablePoints` at entry, subset count `m_num_subsets`, the subset
ladder as index lists, the global octree depth `maxLevel()`, and the number of
registered shape factories (`m_shapeFactories` enters the driver only through
its size and the fits its entries produce). -/
structure DetectEnv where
  N : ℕ
  K : ℕ
  ladder : List (List ℕ)
  maxLevel : ℕ
  F : ℕ

/-- Nondeterminism oracle standing for the engine random generator
(`m_rng`, seeded at construction) and the external plug-in fits: `gen t k` is
the validated fit factory `k` builds from the inner-iteration-`t` sample
(`none` when sampling or `Shape::compute` fails validation), and `pick t` is
the pool position `getBestCandidate` singles out after its sort (the source
computes it deterministically; every theorem over this model holds for all
choices, hence also for that one). -/
structure DetectOracle where
  gen : ℕ → ℕ → Option ShapeFit
  pick : ℕ → ℕ

/-- Mutable state of the `detect` main loop (lines 276-291): the assignment
map `m_shapeIndex`, the extracted shapes, `numInvalid`, the per-subset
available counts `m_availableOctreeSizes`, the candidate pool, and the
counters `nbNewCandidates`, `nbFailedCandidates`, `forceExit`, `bestExp`. -/
structure DetectState where
  shapeIndex : List ℤ
  extracted : List Candidate
  numInvalid : ℕ
  availSizes : List ℕ
  pool : List (Option Candidate)
  nbNew : ℕ
  nbFailed : ℕ
  forceExit : Bool
  bestExp : ℚ

/-- A freshly created candidate before any bound improvement. -/
def freshCandidate (f : ShapeFit) : Candidate :=
  { cfit := f, score := 0, nbSubsetUsed := 0, indices := []
  , minB := 0, maxB := 0, expected := 0 }

/-- Force-exit trigger, line 338: `if (nbFailedCandidates >= 10000)
forceExit = true`. -/
def forceExitTrigger (nbFailed : ℕ) : Bool := decide (10000 ≤ nbFailed)

/-- The available-point count during detection:
`m_numAvailablePoints - numInvalid`. -/
def availCount (env : DetectEnv) (s : DetectState) : ℕ := env.N - s.numInvalid

/-- One factory attempt inside the candidate-generation loop (lines 313-334):
take the fit the factory computed from the sample (`none` when invalid), run
one bound improvement (`improveBound(p, available, 1, 500)`, line 318), keep
the candidate if its `max_bound` reaches `min_points` (updating `bestExp`),
otherwise count a failure. -/
def genTry (env : DetectEnv) (opts : Parameters) (oracle : DetectOracle) (t : ℕ)
    (st : DetectState) (k : ℕ) : DetectState :=
  match oracle.gen t k with
  | none => { st with nbFailed := st.nbFailed + 1 }
  | some f =>
    if (opts.min_points : ℚ) ≤
        (improveBound env.ladder st.availSizes st.shapeIndex opts.epsilon
          opts.normal_threshold env.K (freshCandidate f) (availCount env st) 1 500).1.maxB
    then
      { st with
        bestExp := max st.bestExp
          (improveBound env.ladder st.availSizes st.shapeIndex opts.epsilon
            opts.normal_threshold env.K (freshCandidate f) (availCount env st)
            1 500).1.expected
        pool := st.pool ++
          [some (improveBound env.ladder st.availSizes st.shapeIndex opts.epsilon
            opts.normal_threshold env.K (freshCandidate f) (availCount env st)
            1 500).1] }
    else { st with nbFailed := st.nbFailed + 1 }

/-- One iteration of the candidate-generation do-while (lines 298-339): count
the drawn candidate, try every registered factory on the sample, and set the
force-exit flag when the failure counter reaches the 10000 ceiling. -/
def genInner (env : DetectEnv) (opts : Parameters) (oracle : DetectOracle) (t : ℕ)
    (s : DetectState) : DetectState :=
  let s2 := (List.range env.F).foldl (genTry env opts oracle t)
    { s with nbNew := s.nbNew + 1 }
  if forceExitTrigger s2.nbFailed then { s2 with forceExit := true } else s2

/-- Stay-in-generation condition of the do-while (lines 341-343):
`!forceExit && Stop(bestExp, ...) > probability && Stop(min_points, ...) >
probability`. -/
def genContinue (env : DetectEnv) (opts : Parameters) (s : DetectState) : Bool :=
  !s.forceExit &&
  decide (opts.probability <
    StopProbability s.bestExp (availCount env s) s.nbNew (env.maxLevel : ℚ)) &&
  decide (opts.probability <
    StopProbability (opts.min_points : ℚ) (availCount env s) s.nbNew (env.maxLevel : ℚ))

/-- The candidate-generation do-while (lines 298-343), fuel-bounded: `none`
when the fuel does not cover the loop.  The inner-iteration counter `t` is
threaded through so that each iteration consumes fresh oracle entries; the
next free value is returned. -/
def genLoop (env : DetectEnv) (opts : Parameters) (oracle : DetectOracle) :
    ℕ → ℕ → DetectState → Option (DetectState × ℕ)
  | 0, _, _ => none
  | fuel + 1, t, s =>
    let s1 := genInner env opts oracle t s
    if genContinue env opts s1 then genLoop env opts oracle fuel (t + 1) s1
    else some (s1, t + 1)

/-- Marking the best candidate points as assigned (lines 389-394):
`m_shapeIndex[i] = m_extractedShapes.size() - 1` for every claimed index. -/
def markAssigned (shapeIndex : List ℤ) (idx : List ℕ) (v : ℤ) : List ℤ :=
  idx.foldl (fun si i => si.set i v) shapeIndex

/-- Decrement of the per-subset available counters for one committed point
(lines 396-409; the source locates the owning subset through its offset
range, the embedding through membership in the subset index list). -/
def decAvail (ladder : List (List ℕ)) (avail : List ℕ) (i : ℕ) : List ℕ :=
  (ladder.zip avail).map (fun la => if la.1.contains i then la.2 - 1 else la.2)

/-- Cumulative subset sizes (lines 423-427): `subsetSizes[i]` is the sum of
the available sizes of subsets `0..i`. -/
def prefixSums (l : List ℕ) : List ℕ :=
  (List.range l.length).map (fun i => (l.take (i + 1)).sum)

/-- Per-candidate rewrite after a commit decision (lines 434-440): update the
points against the new assignment, delete the candidate when its score falls
under `min_points`, otherwise recompute its bound against the new available
count. -/
def updateEntry (shapeIndex : List ℤ) (subsetSizes : List ℕ) (availP m : ℕ) :
    Option Candidate → Option Candidate
  | none => none
  | some c =>
    if (update_points shapeIndex c).score < m then none
    else some (compute_bound
      (subsetSizes.getD ((update_points shapeIndex c).nbSubsetUsed - 1) 0) availP
      (update_points shapeIndex c))

/-- Pool compaction (lines 444-455): the two-pointer sweep moving surviving
candidates from the back over deleted slots.  Each step mirrors one pointer
move of the source loop; the fuel is structural only (`e + 1 - start` steps
suffice, see `compactLoop_spec`).  Returns the array and the final `end`
value used by `candidates.resize(end)` (line 456). -/
def compactLoop : ℕ → List (Option Candidate) → ℕ → ℕ →
    List (Option Candidate) × ℕ
  | 0, cands, _, e => (cands, e)
  | fuel + 1, cands, start, e =>
    if start < e then
      if (cands.getD start none).isSome then compactLoop fuel cands (start + 1) e
      else if (cands.getD e none).isNone then compactLoop fuel cands start (e - 1)
      else compactLoop fuel ((cands.set start (cands.getD e none)).set e none)
        (start + 1) (e - 1)
    else (cands, e)

/-- Global rescoring of the best candidate (lines 371-373): clear its matched
indices, rescore on the global octree with tolerance `3 * epsilon` and
`normal_threshold` (the widened distance tolerance is deliberate), then apply
the connected-component filter with `cluster_epsilon`. -/
def rescoreBest (env : DetectEnv) (opts : Parameters) (shapeIndex : List ℤ)
    (c : Candidate) : Candidate :=
  { c with
    score := (octreeScore (List.range env.N) shapeIndex c.cfit (3 * opts.epsilon)
      opts.normal_threshold).length
    indices := connected_component opts.cluster_epsilon c.cfit
      (octreeScore (List.range env.N) shapeIndex c.cfit (3 * opts.epsilon)
        opts.normal_threshold) }

/-- The commit decision and pool rewrite of one outer iteration (lines
376-457), applied to the globally rescored, connectivity-filtered best
candidate `best`, with the pool holding the best at its back.  When the
overlook probability of the best is at most `probability`: if the filtered
claim reaches `min_points`, the candidate is extracted (back pool slot
nulled, shape appended, points marked with the new shape id, `numInvalid` and
the per-subset available counts adjusted, `nbNewCandidates` decremented and
the failure counter reset), and in either case every other candidate is
updated against the new assignment and available count (deleted when its
score falls under `min_points`) and the pool is compacted and resized.
Otherwise the state is returned unchanged. -/
def commitStep (env : DetectEnv) (opts : Parameters) (s : DetectState)
    (best : Candidate) : DetectState :=
  if StopProbability best.expected (availCount env s) s.nbNew (env.maxLevel : ℚ)
      ≤ opts.probability then
    let s1 :=
      if opts.min_points ≤ best.indices.length then
        { s with pool := s.pool.set (s.pool.length - 1) none
               , extracted := s.extracted ++ [best]
               , shapeIndex := markAssigned s.shapeIndex best.indices
                   (s.extracted.length : ℤ)
               , numInvalid := s.numInvalid + best.indices.length
               , availSizes := best.indices.foldl
                   (fun av i => decAvail env.ladder av i) s.availSizes
               , nbNew := s.nbNew - 1
               , nbFailed := 0
               , bestExp := 0 }
      else s
    let pool1 := (s1.pool.take (s1.pool.length - 1)).map
        (updateEntry s1.shapeIndex (prefixSums s1.availSizes) (availCount env s1)
          opts.min_points)
      ++ s1.pool.drop (s1.pool.length - 1)
    let ce := compactLoop (pool1.length + 1) pool1 0 (pool1.length - 1)
    { s1 with pool := ce.1.take ce.2 }
  else s

/-- One outer iteration after candidate generation (lines 353-457): skip when
the pool is empty or no best candidate is found, otherwise select the best
(the oracle choice, moved to the back of the pool as the sorting of
`getBestCandidate` does), rescore it globally, and run the commit decision. -/
def outerBody (env : DetectEnv) (opts : Parameters) (oracle : DetectOracle) (t : ℕ)
    (s : DetectState) : DetectState :=
  if s.pool.isEmpty then s
  else
    match s.pool.getD (oracle.pick t % s.pool.length) none with
    | none => s
    | some b =>
      commitStep env opts
        { s with pool := s.pool.eraseIdx (oracle.pick t % s.pool.length) ++ [some b] }
        (rescoreBest env opts s.shapeIndex b)

/-- Exit condition of the outer do-while (lines 460-461), negated:
the loop continues while `Stop(min_points, available, nbNewCandidates,
maxLevel) > probability` and `available >= min_points`. -/
def exitCond (env : DetectEnv) (opts : Parameters) (s : DetectState) : Bool :=
  !(decide (opts.probability <
      StopProbability (opts.min_points : ℚ) (availCount env s) s.nbNew
        (env.maxLevel : ℚ)) &&
    decide ((opts.min_points : ℚ) ≤ (availCount env s : ℚ)))

/-- The outer do-while of `detect` (lines 293-461), fuel-bounded: each
iteration resets `bestExp`, runs the generation loop, breaks immediately on
force exit (retaining the extracted shapes), otherwise selects and possibly
commits a shape, and stops when the exit condition holds.  `none` when the
fuel does not cover the run. -/
def detectLoop (env : DetectEnv) (opts : Parameters) (oracle : DetectOracle)
    (gfuel : ℕ) : ℕ → ℕ → DetectState → Option DetectState
  | 0, _, _ => none
  | fuel + 1, t, s =>
    match genLoop env opts oracle gfuel t { s with bestExp := 0 } with
    | none => none
    | some st =>
      if st.1.forceExit then some st.1
      else
        let s2 := outerBody env opts oracle st.2 st.1
        if exitCond env opts s2 then some s2
        else detectLoop env opts oracle gfuel fuel st.2 s2

/-- The externally observable engine state: assignment map, extracted shapes
and `m_numAvailablePoints`. -/
structure EngineState where
  shapeIndex : List ℤ
  extracted : List Candidate
  numAvailable : ℕ

/-- Engine state right after construction (constructor, lines 161-226): the
assignment map `m_shapeIndex` is empty — it is first resized inside `detect`
(line 276) — no shape is extracted, and `m_numAvailablePoints` is the input
size. -/
def constructedEngine (N : ℕ) : EngineState :=
  { shapeIndex := [], extracted := [], numAvailable := N }

/-- `Shape_detection_3::detect` (lines 266-466): return immediately when no
shape factory is registered (line 269, before anything is touched); otherwise
size the assignment map to all-unassigned, run the main loop from empty pool
and zeroed counters, and finally subtract the newly assigned count from
`m_numAvailablePoints` (line 463).  `none` when the fuel does not cover the
run. -/
def detect (env : DetectEnv) (opts : Parameters) (oracle : DetectOracle)
    (fuel gfuel : ℕ) (eng : EngineState) : Option EngineState :=
  if env.F = 0 then some eng
  else
    match detectLoop env opts oracle gfuel fuel 0
      { shapeIndex := List.replicate env.N (-1)
      , extracted := eng.extracted
      , numInvalid := 0
      , availSizes := env.ladder.map List.length
      , pool := [], nbNew := 0, nbFailed := 0, forceExit := false, bestExp := 0 } with
    | none => none
    | some s1 => some { shapeIndex := s1.shapeIndex
                      , extracted := s1.extracted
                      , numAvailable := eng.numAvailable - s1.numInvalid }

/-- The predicate of `Filter_unassigned_points` (lines 120-129): an index
below the assignment-map size passes when unassigned; any index beyond the
map size passes (the source comment: to prevent infinite incrementing). -/
def Filter_unassigned_points (shapeIndex : List ℤ) (x : ℕ) : Bool :=
  if x < shapeIndex.length then shapeIndex.getD x (-1) == -1 else true

/-- The index range `unassigned_points_begin()` .. `unassigned_points_end()`
(lines 507-520) as a list: counting iterators over `[0, m_shapeIndex.size())`
filtered by `Filter_unassigned_points`. -/
def unassigned_points (eng : EngineState) : List ℕ :=
  (List.range eng.shapeIndex.length).filter (Filter_unassigned_points eng.shapeIndex)

/-- `number_of_unassigned_points` (lines 500-502): returns
`m_numAvailablePoints`. -/
def number_of_unassigned_points (eng : EngineState) : ℕ := eng.numAvailable

/-- The whole engine run as a function of the input size, the configuration,
the registered-kind count, the octree depth, the random stream and the
plug-in oracle: the constructor (the subset ladder consuming the stream)
followed by `detect`.  The source seeds `m_rng` from `std::random_device` at
construction (line 165); the run is a function of that seed value — embedded
here as the supplied streams `bits` and `oracle` — and of nothing else. -/
def runEngine (N : ℕ) (opts : Parameters) (F maxLevel : ℕ)
    (bits : ℕ → ℕ → Bool) (oracle : DetectOracle) (fuel gfuel : ℕ) :
    Option EngineState :=
  detect
    { N := N, K := numSubsets N
    , ladder := buildLadder bits (numSubsets N - 1) (List.range N)
    , maxLevel := maxLevel, F := F }
    opts oracle fuel gfuel (constructedEngine N)

/-- Example configuration: accept everything (`probability = 1`,
`min_points = 1`, unit tolerances). -/
def exOpts : Parameters :=
  { probability := 1, min_points := 1, epsilon := 1, normal_threshold := 1
  , cluster_epsilon := 1 }

/-- Example oracle: every factory attempt yields the everywhere-matching fit,
the best candidate is picked at pool position 0. -/
def exOracle : DetectOracle := { gen := fun _ _ => some exFit, pick := fun _ => 0 }

/-- Example detection environment over three points and the two-subset
example ladder. -/
def exEnv : DetectEnv :=
  { N := 3, K := 2, ladder := exLadder, maxLevel := 1, F := 1 }

/-- The candidate the example run extracts: all three points, exact bounds. -/
def exBest : Candidate :=
  { cfit := exFit, score := 3, nbSubsetUsed := 2, indices := [0, 1, 2]
  , minB := 3, maxB := 3, expected := 3 }

/-- Start state of the example `detect` main loop. -/
def exStart : DetectState :=
  { shapeIndex := [-1, -1, -1], extracted := [], numInvalid := 0
  , availSizes := [1, 2], pool := [], nbNew := 0, nbFailed := 0
  , forceExit := false, bestExp := 0 }

/-- End state of the example `detect` main loop: one shape extracted claiming
all three points. -/
def exEnd : DetectState :=
  { shapeIndex := [0, 0, 0], extracted := [exBest], numInvalid := 3
  , availSizes := [0, 0], pool := [], nbNew := 0, nbFailed := 0
  , forceExit := false, bestExp := 0 }

/-- The state after the single generation round of the example run. -/
def exGen1 : DetectState :=
  { shapeIndex := [-1, -1, -1], extracted := [], numInvalid := 0
  , availSizes := [1, 2], pool := [some exBest], nbNew := 1, nbFailed := 0
  , forceExit := false, bestExp := 3 }

/-- The engine state of the completed example run. -/
def exFinal : EngineState :=
  { shapeIndex := [0, 0, 0], extracted := [exBest], numAvailable := 0 }

/-- Helper: the invariant the main loop maintains over the states it reaches:
the assignment map has the input length, its assigned-entry count is
`numInvalid`, and every extracted shape at position `k` claims only in-range
points whose assignment entry is exactly `k` and which pass the global
verification tolerances `3 * epsilon` and `normal_threshold`. -/
def Sound (env : DetectEnv) (opts : Parameters) (s : DetectState) : Prop :=
  s.shapeIndex.length = env.N ∧
  s.shapeIndex.countP (fun x => !(x == -1)) = s.numInvalid ∧
  ∀ (k : ℕ) (hk : k < s.extracted.length),
    ∀ i ∈ (s.extracted.get ⟨k, hk⟩).indices,
      i < env.N ∧ s.shapeIndex.getD i (-1) = (k : ℤ) ∧
      |(s.extracted.get ⟨k, hk⟩).cfit.sdist i| ≤ 3 * opts.epsilon ∧
      (s.extracted.get ⟨k, hk⟩).cfit.sdev i ≤ opts.normal_threshold

/-- A pool state holding one other candidate besides the best. -/
def exPoolState : DetectState :=
  { shapeIndex := [-1, -1, -1], extracted := [], numInvalid := 0
  , availSizes := [1, 2], pool := [some exCand, some exBest], nbNew := 1
  , nbFailed := 0, forceExit := false, bestExp := 3 }

/-- C2: the overlook-probability function used by the driver computes, for
every candidate size `c`, available-point count `P`, drawn-candidate count `d`
and octree depth `L`, exactly `min(1, (1 - c / (3 P L))^d)`. -/
theorem C2_overlook_formula (c P : ℚ) (d : ℕ) (L : ℚ) :
    StopProbability c P d L = overlookSpec c P d L := by
  unfold StopProbability overlookSpec
  rw [min_comm, show P * L * 3 = 3 * P * L by ring]

/-- The source index `(rng() % 2) + (i << 1)` of the subset-generation loop is
always in range for `i < r / 2`, so the clamp on line 198 is the identity. -/
theorem pick_index_lt (r i : ℕ) (b : Bool) (h : i < r / 2) :
    (if b then 1 else 0) + 2 * i < r := by
  cases b <;> simp <;> omega

theorem pickPairs_perm (bits : ℕ → Bool) :
    ∀ (i : ℕ) (l : List α),
      List.Perm ((pickPairs bits i l).1 ++ (pickPairs bits i l).2) l
  | _, [] => by simp [pickPairs]
  | _, [a] => by simp [pickPairs]
  | i, a :: b :: rest => by
    have ih := pickPairs_perm bits (i + 1) rest
    by_cases h : bits i
    · simp only [pickPairs, h, if_true, List.cons_append]
      exact List.Perm.trans
        (List.Perm.cons b (List.Perm.trans List.perm_middle (List.Perm.cons a ih)))
        (List.Perm.swap a b rest)
    · simp only [pickPairs, h, if_false, List.cons_append]
      exact List.Perm.cons a (List.Perm.trans List.perm_middle (List.Perm.cons b ih))

theorem pickPairs_lengths (bits : ℕ → Bool) :
    ∀ (i : ℕ) (l : List α),
      (pickPairs bits i l).1.length = l.length / 2 ∧
      (pickPairs bits i l).2.length = l.length - l.length / 2
  | _, [] => by simp [pickPairs]
  | _, [a] => by simp [pickPairs]
  | i, a :: b :: rest => by
    have ih := pickPairs_lengths bits (i + 1) rest
    by_cases h : bits i <;> simp [pickPairs, h] <;> omega

theorem buildLadder_length (bits : ℕ → ℕ → Bool) :
    ∀ (s : ℕ) (l : List α), (buildLadder bits s l).length = s + 1
  | 0, l => by simp [buildLadder]
  | s + 1, l => by
    simp [buildLadder, buildLadder_length bits s]

theorem buildLadder_flatten_perm (bits : ℕ → ℕ → Bool) :
    ∀ (s : ℕ) (l : List α), List.Perm (buildLadder bits s l).flatten l
  | 0, l => by simp [buildLadder]
  | s + 1, l => by
    have hperm := pickPairs_perm (bits (s + 1)) 0 l
    have ih := buildLadder_flatten_perm bits s (pickPairs (bits (s + 1)) 0 l).2
    simp only [buildLadder, List.flatten_append, List.flatten_cons, List.flatten_nil,
      List.append_nil]
    exact List.Perm.trans (List.Perm.append ih (List.Perm.refl _))
      (List.Perm.trans List.perm_append_comm hperm)

theorem buildLadder_sizes (bits : ℕ → ℕ → Bool) :
    ∀ (s : ℕ) (l : List α),
      (buildLadder bits s l).map List.length = ladderSizes s l.length
  | 0, l => by simp [buildLadder, ladderSizes]
  | s + 1, l => by
    have hl := pickPairs_lengths (bits (s + 1)) 0 l
    simp only [buildLadder, ladderSizes, List.map_append, List.map_cons, List.map_nil]
    rw [buildLadder_sizes bits s, hl.1, hl.2]

theorem numSubsets_five : numSubsets 5 = 2 := by
  unfold numSubsets
  rw [show Nat.log 2 5 = 2 from by rw [Nat.log_eq_of_pow_le_of_lt_pow] <;> norm_num]
  decide

/-- C7 counterexample: on an input of `N = 5` points the construction produces
`K = 2` subsets of sizes `[3, 2]` (whatever the random draws, since only the
positions `2 i + b` with `i < r / 2` are picked): subset 0 holds strictly more
points than subset 1, so subset 0 is not the smallest subset, and its size is
not approximately `N / 2^(K-0) = 5/4`. -/
theorem C7_counterexample :
    ((buildLadder (fun _ _ => false) (numSubsets 5 - 1) (List.range 5)).map List.length)
      = [3, 2] ∧
    ¬ ((buildLadder (fun _ _ => false) (numSubsets 5 - 1) (List.range 5)).map
          List.length).getD 0 0 ≤
      ((buildLadder (fun _ _ => false) (numSubsets 5 - 1) (List.range 5)).map
          List.length).getD 1 0 := by
  rw [numSubsets_five]
  decide

/-- C7 (amended): construction partitions the `N` input points into exactly
`K = max(2, floor(log2 N) - 9)` pairwise-disjoint subsets whose union is the
full point set.  Subset `s` (for `s >= 1`) holds `floor(r_s / 2)` of the `r_s`
points still remaining at its stage (about `N / 2^(K-s)`), and subset 0 holds
the whole remainder of stage 1 (about `N / 2^(K-1)`, so at least as many
points as subset 1, not fewer); the sizes are given exactly by the recurrence
`ladderSizes`. -/
theorem C7_ladder_partition (bits : ℕ → ℕ → Bool) (l : List ℕ) :
    (buildLadder bits (numSubsets l.length - 1) l).length = numSubsets l.length ∧
    List.Perm (buildLadder bits (numSubsets l.length - 1) l).flatten l ∧
    (buildLadder bits (numSubsets l.length - 1) l).map List.length
      = ladderSizes (numSubsets l.length - 1) l.length ∧
    (l.Nodup →
      (buildLadder bits (numSubsets l.length - 1) l).Pairwise List.Disjoint) := by
  refine ⟨?_, buildLadder_flatten_perm bits _ l, buildLadder_sizes bits _ l, ?_⟩
  · rw [buildLadder_length bits]
    have h2 : 2 ≤ numSubsets l.length := le_max_right _ _
    omega
  · intro hnd
    have hperm := buildLadder_flatten_perm bits (numSubsets l.length - 1) l
    have : (buildLadder bits (numSubsets l.length - 1) l).flatten.Nodup :=
      (List.Perm.nodup_iff hperm).mpr hnd
    exact (List.nodup_flatten.mp this).2

/-- Closed instance of `C7_ladder_partition`: the five-point ladder of the
counterexample still is a partition (the union of the subsets is, up to
order, the whole input). -/
theorem C7_ladder_partition_witness :
    List.Perm (buildLadder (fun _ _ => false)
      (numSubsets (List.range 5).length - 1) (List.range 5)).flatten (List.range 5) :=
  (C7_ladder_partition (fun _ _ => false) (List.range 5)).2.1

theorem connected_component_subset (kappa : ℚ) (f : ShapeFit) (indices : List ℕ)
    (i : ℕ) (h : i ∈ connected_component kappa f indices) : i ∈ indices :=
  List.mem_of_mem_filter h

theorem flatten_take_succ (L : List (List ℕ)) (n : ℕ) :
    (L.take (n + 1)).flatten = (L.take n).flatten ++ L.getD n [] := by
  rw [List.take_succ, List.flatten_append]
  congr 1
  cases h : L[n]? <;> simp [List.getD_eq_getElem?_getD, h]

theorem sum_take_succ (l : List ℕ) (n : ℕ) :
    (l.take (n + 1)).sum = (l.take n).sum + l.getD n 0 := by
  rw [List.take_succ, List.sum_append]
  congr 1
  cases h : l[n]? <;> simp [List.getD_eq_getElem?_getD, h]

theorem sum_take_le (l : List ℕ) (n : ℕ) : (l.take n).sum ≤ l.sum := by
  conv_rhs => rw [← List.take_append_drop n l]
  rw [List.sum_append]
  omega

theorem availOf_getD (shapeIndex : List ℤ) :
    ∀ (ladder : List (List ℕ)) (n : ℕ),
      (availOf shapeIndex ladder).getD n 0 =
        ((ladder.getD n []).filter (fun i => shapeIndex.getD i (-1) == -1)).length
  | [], n => by simp [availOf]
  | L :: Ls, 0 => by simp [availOf]
  | L :: Ls, n + 1 => by
    simpa [availOf] using availOf_getD shapeIndex Ls n

theorem octreeScore_length_le (sub : List ℕ) (shapeIndex : List ℤ) (f : ShapeFit)
    (eps tau : ℚ) :
    (octreeScore sub shapeIndex f eps tau).length ≤
      (sub.filter (fun i => shapeIndex.getD i (-1) == -1)).length := by
  rw [octreeScore, ← List.countP_eq_length_filter, ← List.countP_eq_length_filter]
  refine List.countP_mono_left ?_
  intro a _ ha
  simp only [octMatch, Bool.and_eq_true] at ha
  exact ha.1.1

theorem advanceOne_cfit (ladder : List (List ℕ)) (shapeIndex : List ℤ)
    (eps tau : ℚ) (c : Candidate) :
    (advanceOne ladder shapeIndex eps tau c).cfit = c.cfit := rfl

theorem advanceOne_tracks (ladder : List (List ℕ)) (shapeIndex : List ℤ)
    (eps tau : ℚ) (c : Candidate)
    (hT : Tracks ladder shapeIndex eps tau c) :
    Tracks ladder shapeIndex eps tau (advanceOne ladder shapeIndex eps tau c) := by
  obtain ⟨h1, h2⟩ := hT
  refine ⟨by simp [advanceOne, h1], ?_⟩
  show c.indices ++ octreeScore (ladder.getD c.nbSubsetUsed []) shapeIndex c.cfit eps tau
      = ((ladder.take (c.nbSubsetUsed + 1)).flatten).filter
          (octMatch shapeIndex c.cfit eps tau)
  rw [h2, flatten_take_succ, List.filter_append]
  rfl

theorem scoreLoop_spec (ladder : List (List ℕ)) (shapeIndex : List ℤ)
    (eps tau : ℚ) (K minPts : ℕ) :
    ∀ (fuel : ℕ) (c : Candidate) (numEval newSampled : ℕ) (r : Candidate × ℕ),
      scoreLoop ladder (availOf shapeIndex ladder) shapeIndex eps tau K minPts fuel c
        numEval newSampled = r →
      Tracks ladder shapeIndex eps tau c →
      numEval = ((availOf shapeIndex ladder).take c.nbSubsetUsed).sum →
      r.1.cfit = c.cfit ∧ Tracks ladder shapeIndex eps tau r.1 ∧
        r.2 = ((availOf shapeIndex ladder).take r.1.nbSubsetUsed).sum ∧
        c.score ≤ r.1.score ∧ r.1.score + numEval ≤ c.score + r.2 := by
  intro fuel
  induction fuel with
  | zero =>
    intro c numEval newSampled r hr hT hev
    rw [scoreLoop] at hr
    subst hr
    exact ⟨rfl, hT, hev, le_refl _, le_refl _⟩
  | succ fuel ih =>
    intro c numEval newSampled r hr hT hev
    have hlen : (octreeScore (ladder.getD c.nbSubsetUsed []) shapeIndex c.cfit
        eps tau).length ≤ (availOf shapeIndex ladder).getD c.nbSubsetUsed 0 := by
      rw [availOf_getD]
      exact octreeScore_length_le _ _ _ _ _
    have hev1 : numEval + (availOf shapeIndex ladder).getD c.nbSubsetUsed 0 =
        ((availOf shapeIndex ladder).take
          ((advanceOne ladder shapeIndex eps tau c).nbSubsetUsed)).sum := by
      show _ = ((availOf shapeIndex ladder).take (c.nbSubsetUsed + 1)).sum
      rw [sum_take_succ, hev]
    have hsc : (advanceOne ladder shapeIndex eps tau c).score =
        c.score + (octreeScore (ladder.getD c.nbSubsetUsed []) shapeIndex c.cfit
          eps tau).length := rfl
    rw [scoreLoop] at hr
    split at hr
    · have h := ih (advanceOne ladder shapeIndex eps tau c) _ _ r hr
        (advanceOne_tracks ladder shapeIndex eps tau c hT) hev1
      refine ⟨h.1.trans (advanceOne_cfit _ _ _ _ _), h.2.1, h.2.2.1, ?_, ?_⟩
      · exact le_trans (by omega) h.2.2.2.1
      · have := h.2.2.2.2
        omega
    · subst hr
      dsimp only
      exact ⟨rfl, advanceOne_tracks ladder shapeIndex eps tau c hT, hev1,
        by omega, by omega⟩

theorem tracks_score_le (ladder : List (List ℕ)) (shapeIndex : List ℤ)
    (eps tau : ℚ) (c : Candidate) (hT : Tracks ladder shapeIndex eps tau c) :
    c.score ≤ ((availOf shapeIndex ladder).take c.nbSubsetUsed).sum := by
  rw [hT.1, hT.2, List.filter_flatten, availOf, ← List.map_take, List.length_flatten,
    List.map_map]
  exact List.sum_le_sum (fun sub _ => octreeScore_length_le sub shapeIndex c.cfit eps tau)

/-- C6: whenever `improveBound` actually refines a candidate that tracks the
already-inspected subsets (with bounds in the `compute_bound` form, over a
ladder whose available sizes total at most the `SizeP` available points), the
refinement leaves `max_bound` non-increasing and `min_bound` non-decreasing,
keeps `min_bound <= expected_value <= max_bound`, and once all `K` subsets are
inspected (with the available points exactly covered by the ladder) the bounds
collapse to the exact octree score over the whole point set. -/
theorem C6_improveBound_bounds (ladder : List (List ℕ)) (shapeIndex : List ℤ)
    (eps tau : ℚ) (c : Candidate) (SizeP maxSubset minPts : ℕ) (r : Candidate × Bool)
    (hr : improveBound ladder (availOf shapeIndex ladder) shapeIndex eps tau
      ladder.length c SizeP maxSubset minPts = r)
    (hT : Tracks ladder shapeIndex eps tau c)
    (hmin : c.minB = (c.score : ℚ))
    (hmax : c.maxB = (c.score : ℚ) +
      ((SizeP : ℚ) - (((availOf shapeIndex ladder).take c.nbSubsetUsed).sum : ℚ)))
    (hTot : (availOf shapeIndex ladder).sum ≤ SizeP)
    (hb : r.2 = true) :
    c.minB ≤ r.1.minB ∧ r.1.maxB ≤ c.maxB ∧
    r.1.minB ≤ r.1.expected ∧ r.1.expected ≤ r.1.maxB ∧
    (r.1.nbSubsetUsed = ladder.length →
      (availOf shapeIndex ladder).sum = SizeP →
      r.1.minB = r.1.maxB ∧
      r.1.minB = ((octreeScore ladder.flatten shapeIndex c.cfit eps tau).length : ℚ)) := by
  rw [improveBound] at hr
  split at hr
  · rw [← hr] at hb; exact absurd hb (by simp)
  · split at hr
    · rw [← hr] at hb; exact absurd hb (by simp)
    · have hs := scoreLoop_spec ladder shapeIndex eps tau ladder.length minPts
        ladder.length c ((availOf shapeIndex ladder).take c.nbSubsetUsed).sum 0
        (scoreLoop ladder (availOf shapeIndex ladder) shapeIndex eps tau ladder.length
          minPts ladder.length c ((availOf shapeIndex ladder).take c.nbSubsetUsed).sum 0)
        rfl hT rfl
      obtain ⟨hcfit, hT1, hev, hsle, hkey⟩ := hs
      set s := scoreLoop ladder (availOf shapeIndex ladder) shapeIndex eps tau
        ladder.length minPts ladder.length c
        ((availOf shapeIndex ladder).take c.nbSubsetUsed).sum 0 with hsdef
      have hsync1 : s.1.score = s.1.indices.length := hT1.1
      have hr1 : r.1 = compute_bound s.2 SizeP { s.1 with score := s.1.indices.length } := by
        rw [← hr]
      have hfield : r.1.minB = (s.1.score : ℚ) ∧
          r.1.maxB = (s.1.score : ℚ) + ((SizeP : ℚ) - (s.2 : ℚ)) ∧
          r.1.expected = (s.1.score : ℚ) * (SizeP : ℚ) / (s.2 : ℚ) ∧
          r.1.nbSubsetUsed = s.1.nbSubsetUsed := by
        rw [hr1, compute_bound, ← hsync1]
        exact ⟨rfl, rfl, rfl, rfl⟩
      obtain ⟨hminB, hmaxB, hexp, hnb⟩ := hfield
      have hS2le : s.2 ≤ (availOf shapeIndex ladder).sum := by
        rw [hev]; exact sum_take_le _ _
      have hscoreS : s.1.score ≤ s.2 := by
        rw [hev]; exact tracks_score_le ladder shapeIndex eps tau s.1 hT1
      have hS2P : s.2 ≤ SizeP := le_trans hS2le hTot
      refine ⟨?_, ?_, ?_, ?_, ?_⟩
      · rw [hmin, hminB]
        exact_mod_cast hsle
      · rw [hmax, hmaxB]
        have : (s.1.score : ℚ) + (((availOf shapeIndex ladder).take
            c.nbSubsetUsed).sum : ℚ) ≤ (c.score : ℚ) + (s.2 : ℚ) := by
          exact_mod_cast hkey
        linarith
      · rw [hminB, hexp]
        rcases Nat.eq_zero_or_pos s.2 with h0 | hpos
        · have : s.1.score = 0 := by omega
          simp [this, h0]
        · have hpq : (0 : ℚ) < (s.2 : ℚ) := by exact_mod_cast hpos
          rw [mul_div_assoc]
          refine le_mul_of_one_le_right (by positivity) ?_
          rw [one_le_div hpq]
          exact_mod_cast hS2P
      · rw [hmaxB, hexp]
        rcases Nat.eq_zero_or_pos s.2 with h0 | hpos
        · have hz : s.1.score = 0 := by omega
          simp only [hz, h0, Nat.cast_zero, zero_mul, zero_div, zero_add, sub_zero]
          positivity
        · have hpq : (0 : ℚ) < (s.2 : ℚ) := by exact_mod_cast hpos
          rw [div_le_iff₀ hpq]
          have h1 : (s.1.score : ℚ) ≤ (s.2 : ℚ) := by exact_mod_cast hscoreS
          have h2 : (s.2 : ℚ) ≤ (SizeP : ℚ) := by exact_mod_cast hS2P
          nlinarith [mul_nonneg (sub_nonneg.mpr h1) (sub_nonneg.mpr h2)]
      · intro hK hsum
        have hnbK : s.1.nbSubsetUsed = ladder.length := by rw [← hnb]; exact hK
        have hlen : (availOf shapeIndex ladder).length = ladder.length := by
          simp [availOf]
        have hS2 : s.2 = SizeP := by
          rw [hev, hnbK, ← hlen, List.take_length, hsum]
        constructor
        · rw [hminB, hmaxB, hS2]; ring
        · rw [hminB, hsync1, hT1.2, hcfit, hnbK, List.take_length]
          rfl

/-- Closed instance of `C6_improveBound_bounds`: refining `exCand` over the
last subset of `exLadder` collapses its bounds onto the exact global octree
score; every hypothesis is discharged by computation. -/
theorem C6_improveBound_bounds_witness :
    (improveBound exLadder (availOf exShapeIndex exLadder) exShapeIndex 1 1
        exLadder.length exCand 3 2 500).1.minB =
      (improveBound exLadder (availOf exShapeIndex exLadder) exShapeIndex 1 1
        exLadder.length exCand 3 2 500).1.maxB ∧
    (improveBound exLadder (availOf exShapeIndex exLadder) exShapeIndex 1 1
        exLadder.length exCand 3 2 500).1.minB =
      ((octreeScore exLadder.flatten exShapeIndex exCand.cfit 1 1).length : ℚ) :=
  (C6_improveBound_bounds exLadder exShapeIndex 1 1 exCand 3 2 500 _ rfl
      (by constructor <;> decide) (by decide)
      (by norm_num [exCand, exShapeIndex, exLadder, availOf])
      (by decide) (by decide)).2.2.2.2 (by decide) (by decide)

/-- C8: calling `detect` with no registered shape kinds returns immediately
with an empty result: the engine state is handed back unchanged — no shape
extracted, no failure, nothing modified (line 269 returns before even
`m_options` or the assignment map is touched). -/
theorem C8_no_registered_kinds (env : DetectEnv) (opts : Parameters)
    (oracle : DetectOracle) (fuel gfuel : ℕ) (eng : EngineState)
    (h : env.F = 0) :
    detect env opts oracle fuel gfuel eng = some eng := by
  rw [detect, if_pos h]

/-- Closed instance of `C8_no_registered_kinds` on a freshly constructed
three-point engine. -/
theorem C8_no_registered_kinds_witness :
    detect { N := 3, K := 2, ladder := exLadder, maxLevel := 1, F := 0 }
      exOpts exOracle 5 5 (constructedEngine 3) = some (constructedEngine 3) :=
  C8_no_registered_kinds _ exOpts exOracle 5 5 (constructedEngine 3) rfl

/-- C9: determinism.  The engine run is a function of the input, the
configuration, the registered kinds, the octree depth and the random streams
fixed at construction (the source seeds `m_rng` from one `std::random_device`
draw at construction, line 165; that seed value is the `bits`/`oracle` input
here): two runs with identical arguments produce identical outputs. -/
theorem C9_determinism (N₁ N₂ : ℕ) (opts₁ opts₂ : Parameters) (F₁ F₂ L₁ L₂ : ℕ)
    (bits₁ bits₂ : ℕ → ℕ → Bool) (or₁ or₂ : DetectOracle) (fuel₁ fuel₂ g₁ g₂ : ℕ)
    (hN : N₁ = N₂) (hopts : opts₁ = opts₂) (hF : F₁ = F₂) (hL : L₁ = L₂)
    (hbits : bits₁ = bits₂) (hor : or₁ = or₂) (hfuel : fuel₁ = fuel₂)
    (hg : g₁ = g₂) :
    runEngine N₁ opts₁ F₁ L₁ bits₁ or₁ fuel₁ g₁ =
      runEngine N₂ opts₂ F₂ L₂ bits₂ or₂ fuel₂ g₂ := by
  subst hN; subst hopts; subst hF; subst hL; subst hbits; subst hor
  subst hfuel; subst hg
  rfl

/-- Closed instance of `C9_determinism` at a concrete five-point run. -/
theorem C9_determinism_witness :
    runEngine 5 exOpts 1 1 (fun _ _ => false) exOracle 3 3 =
      runEngine 5 exOpts 1 1 (fun _ _ => false) exOracle 3 3 :=
  C9_determinism 5 5 exOpts exOpts 1 1 1 1 (fun _ _ => false) (fun _ _ => false)
    exOracle exOracle 3 3 3 3 rfl rfl rfl rfl rfl rfl rfl rfl

theorem genTry_fields (env : DetectEnv) (opts : Parameters) (oracle : DetectOracle)
    (t : ℕ) (st : DetectState) (k : ℕ) :
    (genTry env opts oracle t st k).shapeIndex = st.shapeIndex ∧
    (genTry env opts oracle t st k).extracted = st.extracted ∧
    (genTry env opts oracle t st k).numInvalid = st.numInvalid ∧
    (genTry env opts oracle t st k).availSizes = st.availSizes ∧
    (genTry env opts oracle t st k).forceExit = st.forceExit ∧
    (genTry env opts oracle t st k).nbNew = st.nbNew ∧
    st.nbFailed ≤ (genTry env opts oracle t st k).nbFailed := by
  rw [genTry]
  cases oracle.gen t k
  · exact ⟨rfl, rfl, rfl, rfl, rfl, rfl, Nat.le_succ _⟩
  · dsimp only
    split
    · exact ⟨rfl, rfl, rfl, rfl, rfl, rfl, le_refl _⟩
    · exact ⟨rfl, rfl, rfl, rfl, rfl, rfl, Nat.le_succ _⟩

theorem genFold_fields (env : DetectEnv) (opts : Parameters) (oracle : DetectOracle)
    (t : ℕ) :
    ∀ (l : List ℕ) (st : DetectState),
      (l.foldl (genTry env opts oracle t) st).shapeIndex = st.shapeIndex ∧
      (l.foldl (genTry env opts oracle t) st).extracted = st.extracted ∧
      (l.foldl (genTry env opts oracle t) st).numInvalid = st.numInvalid ∧
      (l.foldl (genTry env opts oracle t) st).availSizes = st.availSizes ∧
      (l.foldl (genTry env opts oracle t) st).forceExit = st.forceExit ∧
      (l.foldl (genTry env opts oracle t) st).nbNew = st.nbNew ∧
      st.nbFailed ≤ (l.foldl (genTry env opts oracle t) st).nbFailed
  | [], st => ⟨rfl, rfl, rfl, rfl, rfl, rfl, le_refl _⟩
  | k :: l, st => by
    have h1 := genTry_fields env opts oracle t st k
    have h2 := genFold_fields env opts oracle t l (genTry env opts oracle t st k)
    rw [List.foldl_cons]
    exact ⟨h2.1.trans h1.1, h2.2.1.trans h1.2.1, h2.2.2.1.trans h1.2.2.1,
      h2.2.2.2.1.trans h1.2.2.2.1, h2.2.2.2.2.1.trans h1.2.2.2.2.1,
      h2.2.2.2.2.2.1.trans h1.2.2.2.2.2.1,
      le_trans h1.2.2.2.2.2.2 h2.2.2.2.2.2.2⟩

theorem genInner_fields (env : DetectEnv) (opts : Parameters) (oracle : DetectOracle)
    (t : ℕ) (s : DetectState) :
    (genInner env opts oracle t s).shapeIndex = s.shapeIndex ∧
    (genInner env opts oracle t s).extracted = s.extracted ∧
    (genInner env opts oracle t s).numInvalid = s.numInvalid ∧
    (genInner env opts oracle t s).availSizes = s.availSizes ∧
    s.nbFailed ≤ (genInner env opts oracle t s).nbFailed := by
  have h := genFold_fields env opts oracle t (List.range env.F)
    { s with nbNew := s.nbNew + 1 }
  rw [genInner]
  split
  · exact ⟨h.1, h.2.1, h.2.2.1, h.2.2.2.1, h.2.2.2.2.2.2⟩
  · exact ⟨h.1, h.2.1, h.2.2.1, h.2.2.2.1, h.2.2.2.2.2.2⟩

theorem genInner_forceExit (env : DetectEnv) (opts : Parameters)
    (oracle : DetectOracle) (t : ℕ) (s : DetectState)
    (h : (genInner env opts oracle t s).forceExit = true) :
    s.forceExit = true ∨ 10000 ≤ (genInner env opts oracle t s).nbFailed := by
  have hf := genFold_fields env opts oracle t (List.range env.F)
    { s with nbNew := s.nbNew + 1 }
  rw [genInner] at h ⊢
  split at h
  · rename_i htrig
    right
    rw [forceExitTrigger, decide_eq_true_eq] at htrig
    split
    · exact htrig
    · exact htrig
  · left
    rw [← hf.2.2.2.2.1]
    exact h

theorem genLoop_some (env : DetectEnv) (opts : Parameters) (oracle : DetectOracle) :
    ∀ (fuel t : ℕ) (s s1 : DetectState) (t' : ℕ),
      genLoop env opts oracle fuel t s = some (s1, t') →
      (s1.shapeIndex = s.shapeIndex ∧ s1.extracted = s.extracted ∧
        s1.numInvalid = s.numInvalid ∧ s1.availSizes = s.availSizes) ∧
      (s1.forceExit = true → s.forceExit = true ∨ 10000 ≤ s1.nbFailed) ∧
      s.nbFailed ≤ s1.nbFailed
  | 0, t, s, s1, t', h => by rw [genLoop] at h; exact absurd h (by simp)
  | fuel + 1, t, s, s1, t', h => by
    rw [genLoop] at h
    have hfi := genInner_fields env opts oracle t s
    split at h
    · have ih := genLoop_some env opts oracle fuel (t + 1)
        (genInner env opts oracle t s) s1 t' h
      refine ⟨⟨ih.1.1.trans hfi.1, ih.1.2.1.trans hfi.2.1,
        ih.1.2.2.1.trans hfi.2.2.1, ih.1.2.2.2.trans hfi.2.2.2.1⟩, ?_,
        le_trans hfi.2.2.2.2 ih.2.2⟩
      intro hforce
      rcases ih.2.1 hforce with hcase | hcase
      · rcases genInner_forceExit env opts oracle t s hcase with hc | hc
        · exact Or.inl hc
        · exact Or.inr (le_trans hc ih.2.2)
      · exact Or.inr hcase
    · have heq : s1 = genInner env opts oracle t s := by
        cases h; rfl
      rw [heq]
      exact ⟨⟨hfi.1, hfi.2.1, hfi.2.2.1, hfi.2.2.2.1⟩,
        fun hf => genInner_forceExit env opts oracle t s hf, hfi.2.2.2.2⟩

theorem commitStep_forceExit (env : DetectEnv) (opts : Parameters)
    (s : DetectState) (best : Candidate) :
    (commitStep env opts s best).forceExit = s.forceExit := by
  rw [commitStep]
  split
  · split <;> rfl
  · rfl

theorem commitStep_extracted (env : DetectEnv) (opts : Parameters)
    (s : DetectState) (best : Candidate) :
    ∃ tail, (commitStep env opts s best).extracted = s.extracted ++ tail := by
  rw [commitStep]
  split
  · split
    · exact ⟨[best], rfl⟩
    · exact ⟨[], by simp⟩
  · exact ⟨[], by simp⟩

theorem outerBody_forceExit (env : DetectEnv) (opts : Parameters)
    (oracle : DetectOracle) (t : ℕ) (s : DetectState) :
    (outerBody env opts oracle t s).forceExit = s.forceExit := by
  rw [outerBody]
  split
  · rfl
  · split
    · rfl
    · exact commitStep_forceExit env opts _ _

theorem outerBody_extracted (env : DetectEnv) (opts : Parameters)
    (oracle : DetectOracle) (t : ℕ) (s : DetectState) :
    ∃ tail, (outerBody env opts oracle t s).extracted = s.extracted ++ tail := by
  rw [outerBody]
  split
  · exact ⟨[], by simp⟩
  · split
    · exact ⟨[], by simp⟩
    · exact commitStep_extracted env opts _ _

theorem exitCond_iff (env : DetectEnv) (opts : Parameters) (s : DetectState) :
    exitCond env opts s = true ↔
      (StopProbability (opts.min_points : ℚ) (availCount env s) s.nbNew
          (env.maxLevel : ℚ) ≤ opts.probability ∨
        ((availCount env s : ℚ) < (opts.min_points : ℚ))) := by
  rw [exitCond]
  simp only [Bool.not_eq_eq_eq_not, Bool.not_true, Bool.and_eq_false_imp,
    decide_eq_true_eq, decide_eq_false_iff_not, not_lt, not_le]
  constructor
  · intro h
    by_cases hlt : opts.probability <
        StopProbability (opts.min_points : ℚ) (availCount env s) s.nbNew
          (env.maxLevel : ℚ)
    · exact Or.inr (h hlt)
    · exact Or.inl (not_lt.mp hlt)
  · intro h hlt
    rcases h with h | h
    · exact absurd hlt (not_lt.mpr h)
    · exact h

/-- C3 counterexample: the force-exit trigger of the generation loop
(line 338) fires already when the failure counter equals exactly 10000,
which does not exceed 10000. -/
theorem C3_counterexample : forceExitTrigger 10000 = true ∧ ¬ 10000 > 10000 := by
  exact ⟨by decide, by decide⟩

/-- C3 (amended): a completed `detect` main loop stops exactly at a state
where the overlook probability for a shape of `min_points` points over the
remaining available points is at most `probability`, or fewer than
`min_points` points remain available, or the force-exit flag is set; the flag
is only ever set by the failure counter having reached at least 10000 (not
strictly more than 10000); and the shapes extracted before the loop (in
particular at a force exit, which breaks right after candidate generation)
are retained in the final state. -/
theorem C3_termination (env : DetectEnv) (opts : Parameters)
    (oracle : DetectOracle) (gfuel : ℕ) :
    ∀ (fuel t : ℕ) (s s' : DetectState),
      detectLoop env opts oracle gfuel fuel t s = some s' →
      (s'.forceExit = true ∨
        StopProbability (opts.min_points : ℚ) (availCount env s') s'.nbNew
          (env.maxLevel : ℚ) ≤ opts.probability ∨
        ((availCount env s' : ℚ) < (opts.min_points : ℚ))) ∧
      (s'.forceExit = true → s.forceExit = true ∨ 10000 ≤ s'.nbFailed) ∧
      (∃ tail, s'.extracted = s.extracted ++ tail)
  | 0, t, s, s', h => by rw [detectLoop] at h; exact absurd h (by simp)
  | fuel + 1, t, s, s', h => by
    rw [detectLoop] at h
    cases hgen : genLoop env opts oracle gfuel t { s with bestExp := 0 } with
    | none => rw [hgen] at h; exact absurd h (by simp)
    | some st =>
      obtain ⟨s1, t1⟩ := st
      have hgl := genLoop_some env opts oracle gfuel t _ s1 t1 hgen
      rw [hgen] at h
      dsimp only at h
      by_cases hforce : s1.forceExit
      · rw [if_pos hforce] at h
        have hs' : s' = s1 := by cases h; rfl
        subst hs'
        refine ⟨Or.inl hforce, fun _ => ?_, ⟨[], by simp [hgl.1.2.1]⟩⟩
        rcases hgl.2.1 hforce with hc | hc
        · exact Or.inl hc
        · exact Or.inr hc
      · rw [if_neg hforce] at h
        have hob := outerBody_extracted env opts oracle t1 s1
        have hobf := outerBody_forceExit env opts oracle t1 s1
        by_cases hexit : exitCond env opts (outerBody env opts oracle t1 s1) = true
        · rw [if_pos hexit] at h
          have hs' : s' = outerBody env opts oracle t1 s1 := by cases h; rfl
          subst hs'
          refine ⟨Or.inr ((exitCond_iff env opts _).mp hexit), fun hf => ?_, ?_⟩
          · exact absurd (hobf ▸ hf) (by simp [hforce])
          · obtain ⟨tl, htl⟩ := hob
            exact ⟨tl, by rw [htl, hgl.1.2.1]⟩
        · rw [if_neg hexit] at h
          have ih := C3_termination env opts oracle gfuel fuel t1 _ s' h
          refine ⟨ih.1, fun hf => ?_, ?_⟩
          · rcases ih.2.1 hf with hc | hc
            · exact absurd (hobf ▸ hc) (by simp [hforce])
            · exact Or.inr hc
          · obtain ⟨tl1, htl1⟩ := ih.2.2
            obtain ⟨tl2, htl2⟩ := hob
            exact ⟨tl2 ++ tl1, by rw [htl1, htl2, hgl.1.2.1, List.append_assoc]⟩

theorem exImprove :
    improveBound exLadder [1, 2] [-1, -1, -1] 1 1 2 (freshCandidate exFit) 3 1 500
      = (exBest, true) := by
  norm_num [improveBound, scoreLoop, advanceOne, octreeScore, octMatch,
    freshCandidate, compute_bound, exFit, exLadder, exBest]

theorem exGenInner : genInner exEnv exOpts exOracle 0 exStart = exGen1 := by
  norm_num [genInner, genTry, exEnv, exOpts, exOracle, exStart, exGen1,
    forceExitTrigger, availCount, exImprove, exBest, List.range_succ,
    List.range_zero, List.foldl_cons, List.foldl_nil]

theorem exGenCont : genContinue exEnv exOpts exGen1 = false := by
  norm_num [genContinue, StopProbability, availCount, exGen1, exEnv, exOpts]

theorem exGenLoop :
    genLoop exEnv exOpts exOracle 2 0 exStart = some (exGen1, 1) := by
  norm_num [genLoop, exGenInner, exGenCont]

theorem exRescore :
    rescoreBest exEnv exOpts exGen1.shapeIndex exBest = exBest := by
  norm_num [rescoreBest, octreeScore, octMatch, connected_component, cellOf,
    cellAdj, growComp, components, largestComp, exBest, exFit, exEnv, exOpts,
    exGen1, List.range_succ]

theorem exCommit : commitStep exEnv exOpts exGen1 exBest = exEnd := by
  norm_num [commitStep, StopProbability, availCount, markAssigned, decAvail,
    prefixSums, updateEntry, compactLoop, exGen1, exEnd, exBest, exEnv, exOpts,
    exLadder]

theorem exOuter : outerBody exEnv exOpts exOracle 1 exGen1 = exEnd := by
  show commitStep exEnv exOpts
      { exGen1 with pool := exGen1.pool.eraseIdx (exOracle.pick 1 % exGen1.pool.length)
          ++ [some exBest] }
      (rescoreBest exEnv exOpts exGen1.shapeIndex exBest) = exEnd
  have hpool : ({ exGen1 with
      pool := exGen1.pool.eraseIdx (exOracle.pick 1 % exGen1.pool.length)
        ++ [some exBest] } : DetectState) = exGen1 := rfl
  rw [hpool, exRescore]
  exact exCommit

theorem exExitCond : exitCond exEnv exOpts exEnd = true := by
  norm_num [exitCond, StopProbability, availCount, exEnd, exEnv, exOpts]

/-- Concrete evaluation of the main loop on the example configuration: with
`probability = 1` one generation round suffices, the single candidate is
committed, and the loop exits. -/
theorem exRunLoop : detectLoop exEnv exOpts exOracle 2 2 0 exStart = some exEnd := by
  have hstart : { exStart with bestExp := 0 } = exStart := rfl
  norm_num [detectLoop, hstart, exGenLoop, exOuter, exExitCond,
    show exGen1.forceExit = false from rfl]

/-- Concrete evaluation of `detect` on the example configuration. -/
theorem exRun :
    detect exEnv exOpts exOracle 2 2 (constructedEngine 3) = some exFinal := by
  show (match detectLoop exEnv exOpts exOracle 2 2 0 exStart with
    | none => none
    | some s1 => some { shapeIndex := s1.shapeIndex, extracted := s1.extracted
                      , numAvailable := (constructedEngine 3).numAvailable
                          - s1.numInvalid }) = some exFinal
  rw [exRunLoop]
  norm_num [exEnd, exFinal, exBest, constructedEngine]

theorem getD_set :
    ∀ (l : List ℤ) (j i : ℕ) (v : ℤ),
      (l.set j v).getD i (-1) = if i = j ∧ j < l.length then v else l.getD i (-1)
  | [], j, i, v => by simp
  | a :: l, 0, 0, v => by simp
  | a :: l, 0, i + 1, v => by simp
  | a :: l, j + 1, 0, v => by simp
  | a :: l, j + 1, i + 1, v => by
    have ih := getD_set l j i v
    simp only [List.set_cons_succ, List.getD_cons_succ, List.length_cons, ih]
    by_cases h : i = j ∧ j < l.length
    · rw [if_pos h, if_pos ⟨by omega, by omega⟩]
    · rw [if_neg h, if_neg (by omega)]

theorem markAssigned_length (v : ℤ) :
    ∀ (idx : List ℕ) (si : List ℤ), (markAssigned si idx v).length = si.length
  | [], si => rfl
  | j :: idx, si => by
    rw [markAssigned, List.foldl_cons, ← markAssigned]
    rw [markAssigned_length v idx (si.set j v), List.length_set]

theorem markAssigned_getD (v : ℤ) :
    ∀ (idx : List ℕ) (si : List ℤ) (i : ℕ),
      (markAssigned si idx v).getD i (-1) =
        if i ∈ idx ∧ i < si.length then v else si.getD i (-1)
  | [], si, i => by simp [markAssigned]
  | j :: idx, si, i => by
    rw [markAssigned, List.foldl_cons, ← markAssigned]
    rw [markAssigned_getD v idx (si.set j v) i, List.length_set, getD_set]
    by_cases h1 : i ∈ idx ∧ i < si.length
    · rw [if_pos h1, if_pos ⟨List.mem_cons_of_mem j h1.1, h1.2⟩]
    · rw [if_neg h1]
      by_cases h2 : i = j ∧ j < si.length
      · rw [if_pos h2, if_pos ⟨by rw [h2.1]; exact List.mem_cons_self j idx, by omega⟩]
      · rw [if_neg h2, if_neg ?_]
        intro hc
        rcases List.mem_cons.mp hc.1 with he | he
        · exact h2 ⟨he, by omega⟩
        · exact h1 ⟨he, hc.2⟩

theorem countP_set_assign (v : ℤ) (hv : v ≠ -1) :
    ∀ (si : List ℤ) (j : ℕ), j < si.length → si.getD j (-1) = -1 →
      (si.set j v).countP (fun x => !(x == -1)) =
        si.countP (fun x => !(x == -1)) + 1
  | [], j, hj, _ => by simp at hj
  | a :: l, 0, _, ha => by
    have ha' : a = -1 := by simpa using ha
    simp [List.countP_cons, ha', hv]
  | a :: l, j + 1, hj, ha => by
    have ih := countP_set_assign v hv l j (by simpa using hj) (by simpa using ha)
    simp only [List.set_cons_succ, List.countP_cons, ih]
    omega

theorem countP_markAssigned (v : ℤ) (hv : v ≠ -1) :
    ∀ (idx : List ℕ) (si : List ℤ),
      idx.Nodup → (∀ i ∈ idx, i < si.length ∧ si.getD i (-1) = -1) →
      (markAssigned si idx v).countP (fun x => !(x == -1)) =
        si.countP (fun x => !(x == -1)) + idx.length
  | [], si, _, _ => by simp [markAssigned]
  | j :: idx, si, hnd, hall => by
    rw [markAssigned, List.foldl_cons, ← markAssigned]
    have hj := hall j (List.mem_cons_self j idx)
    have hrest : ∀ i ∈ idx, i < (si.set j v).length ∧ (si.set j v).getD i (-1) = -1 := by
      intro i hi
      have h := hall i (List.mem_cons_of_mem j hi)
      have hne : i ≠ j := by
        intro he
        exact (List.nodup_cons.mp hnd).1 (he ▸ hi)
      refine ⟨by rw [List.length_set]; exact h.1, ?_⟩
      rw [getD_set, if_neg (by tauto)]
      exact h.2
    rw [countP_markAssigned v hv idx (si.set j v) (List.nodup_cons.mp hnd).2 hrest]
    rw [countP_set_assign v hv si j hj.1 hj.2]
    simp [Nat.add_comm, Nat.add_assoc, Nat.add_left_comm]

theorem countP_replicate_unassigned (N : ℕ) :
    (List.replicate N (-1 : ℤ)).countP (fun x => !(x == -1)) = 0 := by
  induction N with
  | zero => rfl
  | succ n ih => simp [List.replicate_succ, List.countP_cons, ih]

theorem sound_of_fields (env : DetectEnv) (opts : Parameters) (s s' : DetectState)
    (h1 : s'.shapeIndex = s.shapeIndex) (h2 : s'.extracted = s.extracted)
    (h3 : s'.numInvalid = s.numInvalid) (hS : Sound env opts s) :
    Sound env opts s' := by
  obtain ⟨si, ex, ni, av, pl, nn, nf, fe, be⟩ := s'
  simp only at h1 h2 h3
  subst h1
  subst h2
  subst h3
  exact hS

theorem rescoreBest_spec (env : DetectEnv) (opts : Parameters) (shapeIndex : List ℤ)
    (b : Candidate) :
    (rescoreBest env opts shapeIndex b).indices.Nodup ∧
    ∀ i ∈ (rescoreBest env opts shapeIndex b).indices,
      i < env.N ∧ shapeIndex.getD i (-1) = -1 ∧
      |(rescoreBest env opts shapeIndex b).cfit.sdist i| ≤ 3 * opts.epsilon ∧
      (rescoreBest env opts shapeIndex b).cfit.sdev i ≤ opts.normal_threshold := by
  have hsub : ∀ i ∈ (rescoreBest env opts shapeIndex b).indices,
      i ∈ octreeScore (List.range env.N) shapeIndex b.cfit (3 * opts.epsilon)
        opts.normal_threshold := by
    intro i hi
    exact connected_component_subset _ _ _ i hi
  constructor
  · show (connected_component opts.cluster_epsilon b.cfit
      (octreeScore (List.range env.N) shapeIndex b.cfit (3 * opts.epsilon)
        opts.normal_threshold)).Nodup
    exact List.Nodup.filter _ (List.Nodup.filter _ (List.nodup_range env.N))
  · intro i hi
    have h := hsub i hi
    rw [octreeScore, List.mem_filter] at h
    have hr : i < env.N := List.mem_range.mp h.1
    have hm := h.2
    rw [octMatch, Bool.and_eq_true, Bool.and_eq_true] at hm
    refine ⟨hr, by simpa using hm.1.1, ?_, ?_⟩
    · show |b.cfit.sdist i| ≤ 3 * opts.epsilon
      exact of_decide_eq_true hm.1.2
    · show b.cfit.sdev i ≤ opts.normal_threshold
      exact of_decide_eq_true hm.2

theorem shapes_ok_append (env : DetectEnv) (opts : Parameters) (si : List ℤ)
    (ex : List Candidate) (best : Candidate)
    (hold : ∀ (k : ℕ) (hk : k < ex.length), ∀ i ∈ (ex.get ⟨k, hk⟩).indices,
      i < env.N ∧ si.getD i (-1) = (k : ℤ) ∧
      |(ex.get ⟨k, hk⟩).cfit.sdist i| ≤ 3 * opts.epsilon ∧
      (ex.get ⟨k, hk⟩).cfit.sdev i ≤ opts.normal_threshold)
    (hN : si.length = env.N)
    (hb2 : ∀ i ∈ best.indices, i < env.N ∧ si.getD i (-1) = -1 ∧
      |best.cfit.sdist i| ≤ 3 * opts.epsilon ∧
      best.cfit.sdev i ≤ opts.normal_threshold) :
    ∀ (k : ℕ) (hk : k < (ex ++ [best]).length),
      ∀ i ∈ ((ex ++ [best]).get ⟨k, hk⟩).indices,
        i < env.N ∧
        (markAssigned si best.indices (ex.length : ℤ)).getD i (-1) = (k : ℤ) ∧
        |((ex ++ [best]).get ⟨k, hk⟩).cfit.sdist i| ≤ 3 * opts.epsilon ∧
        ((ex ++ [best]).get ⟨k, hk⟩).cfit.sdev i ≤ opts.normal_threshold := by
  intro k hk i hi
  have hk' : k < ex.length + 1 := by simpa using hk
  by_cases hkold : k < ex.length
  · have hget : (ex ++ [best]).get ⟨k, hk⟩ = ex.get ⟨k, hkold⟩ := by
      rw [List.get_eq_getElem, List.get_eq_getElem, List.getElem_append_left hkold]
    rw [hget] at hi ⊢
    have ho := hold k hkold i hi
    have hnotin : i ∉ best.indices := by
      intro hc
      have := (hb2 i hc).2.1
      rw [ho.2.1] at this
      omega
    refine ⟨ho.1, ?_, ho.2.2⟩
    rw [markAssigned_getD, if_neg (by tauto)]
    exact ho.2.1
  · have hkeq : k = ex.length := by omega
    subst hkeq
    have hget : (ex ++ [best]).get ⟨ex.length, hk⟩ = best := by
      rw [List.get_eq_getElem]
      simp
    rw [hget] at hi ⊢
    refine ⟨(hb2 i hi).1, ?_, (hb2 i hi).2.2⟩
    rw [markAssigned_getD, if_pos ⟨hi, hN ▸ (hb2 i hi).1⟩]

theorem commitStep_sound (env : DetectEnv) (opts : Parameters) (s : DetectState)
    (best : Candidate) (hS : Sound env opts s)
    (hb1 : best.indices.Nodup)
    (hb2 : ∀ i ∈ best.indices,
      i < env.N ∧ s.shapeIndex.getD i (-1) = -1 ∧
      |best.cfit.sdist i| ≤ 3 * opts.epsilon ∧
      best.cfit.sdev i ≤ opts.normal_threshold) :
    Sound env opts (commitStep env opts s best) := by
  rw [commitStep]
  split
  · split
    · rename_i hsize
      have hlen : ∀ i ∈ best.indices, i < s.shapeIndex.length ∧
          s.shapeIndex.getD i (-1) = -1 := by
        intro i hi
        exact ⟨hS.1 ▸ (hb2 i hi).1, (hb2 i hi).2.1⟩
      refine sound_of_fields env opts
        ⟨markAssigned s.shapeIndex best.indices (s.extracted.length : ℤ),
          s.extracted ++ [best], s.numInvalid + best.indices.length,
          s.availSizes, s.pool, s.nbNew, s.nbFailed, s.forceExit, s.bestExp⟩
        _ rfl rfl rfl ⟨?_, ?_, ?_⟩
      · show (markAssigned s.shapeIndex best.indices (s.extracted.length : ℤ)).length
            = env.N
        rw [markAssigned_length, hS.1]
      · show (markAssigned s.shapeIndex best.indices
            (s.extracted.length : ℤ)).countP (fun x => !(x == -1)) =
          s.numInvalid + best.indices.length
        rw [countP_markAssigned _ (by omega) best.indices s.shapeIndex hb1 hlen, hS.2.1]
      · exact shapes_ok_append env opts s.shapeIndex s.extracted best hS.2.2 hS.1 hb2
    · exact sound_of_fields env opts s _ rfl rfl rfl hS
  · exact hS

theorem commitStep_mono (env : DetectEnv) (opts : Parameters) (s : DetectState)
    (best : Candidate)
    (hb2 : ∀ i ∈ best.indices, s.shapeIndex.getD i (-1) = -1) :
    ∀ i, s.shapeIndex.getD i (-1) ≠ -1 →
      (commitStep env opts s best).shapeIndex.getD i (-1) =
        s.shapeIndex.getD i (-1) := by
  intro i hi
  rw [commitStep]
  split
  · split
    · show (markAssigned s.shapeIndex best.indices
          (s.extracted.length : ℤ)).getD i (-1) = s.shapeIndex.getD i (-1)
      rw [markAssigned_getD, if_neg ?_]
      intro hc
      exact hi (hb2 i hc.1)
    · rfl
  · rfl

theorem outerBody_sound (env : DetectEnv) (opts : Parameters) (oracle : DetectOracle)
    (t : ℕ) (s : DetectState) (hS : Sound env opts s) :
    Sound env opts (outerBody env opts oracle t s) := by
  rw [outerBody]
  split
  · exact hS
  · split
    · exact hS
    · rename_i b hb
      have hr := rescoreBest_spec env opts s.shapeIndex b
      exact commitStep_sound env opts
        { s with pool := s.pool.eraseIdx (oracle.pick t % s.pool.length)
            ++ [some b] }
        (rescoreBest env opts s.shapeIndex b)
        (sound_of_fields env opts s _ rfl rfl rfl hS) hr.1 hr.2

theorem outerBody_mono (env : DetectEnv) (opts : Parameters) (oracle : DetectOracle)
    (t : ℕ) (s : DetectState) :
    ∀ i, s.shapeIndex.getD i (-1) ≠ -1 →
      (outerBody env opts oracle t s).shapeIndex.getD i (-1) =
        s.shapeIndex.getD i (-1) := by
  intro i hi
  rw [outerBody]
  split
  · rfl
  · split
    · rfl
    · rename_i b hb
      have hr := rescoreBest_spec env opts s.shapeIndex b
      exact commitStep_mono env opts
        { s with pool := s.pool.eraseIdx (oracle.pick t % s.pool.length)
            ++ [some b] }
        (rescoreBest env opts s.shapeIndex b)
        (fun j hj => (hr.2 j hj).2.1) i hi

theorem detectLoop_sound (env : DetectEnv) (opts : Parameters) (oracle : DetectOracle)
    (gfuel : ℕ) :
    ∀ (fuel t : ℕ) (s s' : DetectState),
      detectLoop env opts oracle gfuel fuel t s = some s' →
      Sound env opts s → Sound env opts s'
  | 0, t, s, s', h => by rw [detectLoop] at h; exact absurd h (by simp)
  | fuel + 1, t, s, s', h => by
    intro hS
    rw [detectLoop] at h
    cases hgen : genLoop env opts oracle gfuel t { s with bestExp := 0 } with
    | none => rw [hgen] at h; exact absurd h (by simp)
    | some st =>
      obtain ⟨s1, t1⟩ := st
      have hgl := genLoop_some env opts oracle gfuel t _ s1 t1 hgen
      have hS1 : Sound env opts s1 :=
        sound_of_fields env opts { s with bestExp := 0 } s1 hgl.1.1 hgl.1.2.1
          hgl.1.2.2.1 (sound_of_fields env opts s _ rfl rfl rfl hS)
      rw [hgen] at h
      dsimp only at h
      by_cases hforce : s1.forceExit
      · rw [if_pos hforce] at h
        have hs' : s' = s1 := by cases h; rfl
        subst hs'
        exact hS1
      · rw [if_neg hforce] at h
        have hS2 := outerBody_sound env opts oracle t1 s1 hS1
        by_cases hexit : exitCond env opts (outerBody env opts oracle t1 s1) = true
        · rw [if_pos hexit] at h
          have hs' : s' = outerBody env opts oracle t1 s1 := by cases h; rfl
          subst hs'
          exact hS2
        · rw [if_neg hexit] at h
          exact detectLoop_sound env opts oracle gfuel fuel t1 _ s' h hS2

theorem detectLoop_mono (env : DetectEnv) (opts : Parameters) (oracle : DetectOracle)
    (gfuel : ℕ) :
    ∀ (fuel t : ℕ) (s s' : DetectState),
      detectLoop env opts oracle gfuel fuel t s = some s' →
      ∀ i, s.shapeIndex.getD i (-1) ≠ -1 →
        s'.shapeIndex.getD i (-1) = s.shapeIndex.getD i (-1)
  | 0, t, s, s', h => by rw [detectLoop] at h; exact absurd h (by simp)
  | fuel + 1, t, s, s', h => by
    intro i hi
    rw [detectLoop] at h
    cases hgen : genLoop env opts oracle gfuel t { s with bestExp := 0 } with
    | none => rw [hgen] at h; exact absurd h (by simp)
    | some st =>
      obtain ⟨s1, t1⟩ := st
      have hgl := genLoop_some env opts oracle gfuel t _ s1 t1 hgen
      have hsi1 : s1.shapeIndex = s.shapeIndex := hgl.1.1
      rw [hgen] at h
      dsimp only at h
      by_cases hforce : s1.forceExit
      · rw [if_pos hforce] at h
        have hs' : s' = s1 := by cases h; rfl
        subst hs'
        rw [hsi1]
      · rw [if_neg hforce] at h
        have hmono2 := outerBody_mono env opts oracle t1 s1 i (by rw [hsi1]; exact hi)
        by_cases hexit : exitCond env opts (outerBody env opts oracle t1 s1) = true
        · rw [if_pos hexit] at h
          have hs' : s' = outerBody env opts oracle t1 s1 := by cases h; rfl
          subst hs'
          rw [hmono2, hsi1]
        · rw [if_neg hexit] at h
          have ih := detectLoop_mono env opts oracle gfuel fuel t1 _ s' h i
            (by rw [hmono2, hsi1]; exact hi)
          rw [ih, hmono2, hsi1]

theorem detect_sound (env : DetectEnv) (opts : Parameters) (oracle : DetectOracle)
    (fuel gfuel : ℕ) (eng eng' : EngineState)
    (hstart : eng.extracted = [])
    (hF : ¬ env.F = 0)
    (h : detect env opts oracle fuel gfuel eng = some eng') :
    ∃ s1 : DetectState, Sound env opts s1 ∧ eng'.shapeIndex = s1.shapeIndex ∧
      eng'.extracted = s1.extracted ∧
      eng'.numAvailable = eng.numAvailable - s1.numInvalid := by
  rw [detect, if_neg hF] at h
  split at h
  · exact absurd h (by simp)
  · rename_i s1 heq
    have hinit : Sound env opts
        { shapeIndex := List.replicate env.N (-1)
        , extracted := eng.extracted
        , numInvalid := 0
        , availSizes := env.ladder.map List.length
        , pool := [], nbNew := 0, nbFailed := 0, forceExit := false
        , bestExp := 0 } := by
      refine ⟨by simp, ?_, ?_⟩
      · show (List.replicate env.N (-1 : ℤ)).countP (fun x => !(x == -1)) = 0
        exact countP_replicate_unassigned env.N
      · intro k hk
        have hk' : k < eng.extracted.length := hk
        rw [hstart] at hk'
        exact absurd hk' (by simp)
    have hS1 := detectLoop_sound env opts oracle gfuel fuel 0 _ s1 heq hinit
    have h2 := Option.some.inj h
    exact ⟨s1, hS1, by rw [← h2], by rw [← h2], by rw [← h2]⟩

/-- C1: after `detect` (run from a fresh engine), for every extracted shape at
position `k` and every index `i` in its assigned-point set, the assignment map
sends `i` to `k`, and `i` belongs to no other extracted shape; moreover, along
the main loop, an assignment entry once set to a shape id never changes. -/
theorem C1_assignment_invariant (env : DetectEnv) (opts : Parameters)
    (oracle : DetectOracle) (fuel gfuel : ℕ) (eng eng' : EngineState)
    (hstart : eng.extracted = [])
    (h : detect env opts oracle fuel gfuel eng = some eng') :
    (∀ (k : ℕ) (hk : k < eng'.extracted.length),
      ∀ i ∈ (eng'.extracted.get ⟨k, hk⟩).indices,
        eng'.shapeIndex.getD i (-1) = (k : ℤ) ∧
        ∀ (k' : ℕ) (hk' : k' < eng'.extracted.length),
          i ∈ (eng'.extracted.get ⟨k', hk'⟩).indices → k' = k) ∧
    (∀ (fuel' t : ℕ) (s s' : DetectState),
      detectLoop env opts oracle gfuel fuel' t s = some s' →
      ∀ i, s.shapeIndex.getD i (-1) ≠ -1 →
        s'.shapeIndex.getD i (-1) = s.shapeIndex.getD i (-1)) := by
  refine ⟨?_, fun fuel' t s s' hl i hi =>
    detectLoop_mono env opts oracle gfuel fuel' t s s' hl i hi⟩
  by_cases hF : env.F = 0
  · rw [detect, if_pos hF] at h
    have he : eng' = eng := by cases h; rfl
    subst he
    intro k hk
    rw [hstart] at hk
    exact absurd hk (by simp)
  · obtain ⟨s1, hS1, hsi, hex, _⟩ :=
      detect_sound env opts oracle fuel gfuel eng eng' hstart hF h
    intro k hk i hi
    have hk1 : k < s1.extracted.length := by rw [← hex]; exact hk
    have hget : eng'.extracted.get ⟨k, hk⟩ = s1.extracted.get ⟨k, hk1⟩ := by
      rw [List.get_eq_getElem, List.get_eq_getElem]
      exact List.getElem_of_eq hex hk
    have hmem : i ∈ (s1.extracted.get ⟨k, hk1⟩).indices := by
      rw [← hget]; exact hi
    have hmain := hS1.2.2 k hk1 i hmem
    refine ⟨by rw [hsi]; exact hmain.2.1, ?_⟩
    intro k' hk' hi'
    have hk1' : k' < s1.extracted.length := by rw [← hex]; exact hk'
    have hget' : eng'.extracted.get ⟨k', hk'⟩ = s1.extracted.get ⟨k', hk1'⟩ := by
      rw [List.get_eq_getElem, List.get_eq_getElem]
      exact List.getElem_of_eq hex hk'
    have hmem' : i ∈ (s1.extracted.get ⟨k', hk1'⟩).indices := by
      rw [← hget']; exact hi'
    have hmain' := hS1.2.2 k' hk1' i hmem'
    have : (k' : ℤ) = (k : ℤ) := by rw [← hmain'.2.1, ← hmain.2.1]
    exact_mod_cast this

/-- Closed instance of `C1_assignment_invariant` on the completed example run:
point 0 of the single extracted shape is mapped to shape id 0. -/
theorem C1_assignment_invariant_witness :
    exFinal.shapeIndex.getD 0 (-1) = ((0 : ℕ) : ℤ) :=
  ((C1_assignment_invariant exEnv exOpts exOracle 2 2 (constructedEngine 3) exFinal
    rfl exRun).1 0 (by decide) 0 (by decide)).1

/-- C5: the best candidate is rescored on the global octree with the widened
distance tolerance `3 * epsilon` and normal threshold `normal_threshold`
before the connected-component filter is applied (definition `rescoreBest`,
source lines 371-373); consequently, after `detect` from a fresh engine,
every extracted shape claims only points within signed distance `3 * epsilon`
and normal deviation `normal_threshold` of its surface. -/
theorem C5_rescore_tolerance (env : DetectEnv) (opts : Parameters)
    (oracle : DetectOracle) (fuel gfuel : ℕ) (eng eng' : EngineState)
    (hstart : eng.extracted = [])
    (h : detect env opts oracle fuel gfuel eng = some eng') :
    ∀ S ∈ eng'.extracted, ∀ i ∈ S.indices,
      |S.cfit.sdist i| ≤ 3 * opts.epsilon ∧
      S.cfit.sdev i ≤ opts.normal_threshold := by
  intro S hS i hi
  by_cases hF : env.F = 0
  · rw [detect, if_pos hF] at h
    have he : eng' = eng := by cases h; rfl
    subst he
    rw [hstart] at hS
    exact absurd hS (by simp)
  · obtain ⟨s1, hS1, _, hex, _⟩ :=
      detect_sound env opts oracle fuel gfuel eng eng' hstart hF h
    rw [hex] at hS
    obtain ⟨⟨k, hk⟩, hget⟩ := List.mem_iff_get.mp hS
    have hmain := hS1.2.2 k hk i (by rw [hget]; exact hi)
    rw [hget] at hmain
    exact ⟨hmain.2.2.1, hmain.2.2.2⟩

/-- Closed instance of `C5_rescore_tolerance`: point 1 of the shape extracted
by the example run is within the widened tolerance. -/
theorem C5_rescore_tolerance_witness :
    |exBest.cfit.sdist 1| ≤ 3 * exOpts.epsilon ∧
      exBest.cfit.sdev 1 ≤ exOpts.normal_threshold :=
  C5_rescore_tolerance exEnv exOpts exOracle 2 2 (constructedEngine 3) exFinal
    rfl exRun exBest (List.mem_cons_self exBest []) 1 (by decide)

/-- Closed instance of `C3_termination` on the completed example run. -/
theorem C3_termination_witness :
    (exEnd.forceExit = true ∨
      StopProbability (exOpts.min_points : ℚ) (availCount exEnv exEnd) exEnd.nbNew
        (exEnv.maxLevel : ℚ) ≤ exOpts.probability ∨
      ((availCount exEnv exEnd : ℚ) < (exOpts.min_points : ℚ))) ∧
    (exEnd.forceExit = true → exStart.forceExit = true ∨ 10000 ≤ exEnd.nbFailed) ∧
    (∃ tail, exEnd.extracted = exStart.extracted ++ tail) :=
  C3_termination exEnv exOpts exOracle 2 2 0 exStart exEnd exRunLoop

theorem filter_map_comm (l : List ℕ) (f : ℕ → ℕ) (p : ℕ → Bool) :
    (l.map f).filter p = (l.filter (fun x => p (f x))).map f := by
  induction l with
  | nil => rfl
  | cons a t ih =>
    simp only [List.map_cons, List.filter_cons, ih]
    split <;> simp

theorem filter_shift (a : ℤ) (l : List ℤ) (i : ℕ) :
    Filter_unassigned_points (a :: l) (i + 1) = Filter_unassigned_points l i := by
  rw [Filter_unassigned_points, Filter_unassigned_points]
  by_cases h : i < l.length
  · rw [if_pos (by simpa using h), if_pos h]
    simp
  · rw [if_neg (by simpa using h), if_neg h]

theorem length_unassigned :
    ∀ l : List ℤ,
      ((List.range l.length).filter (Filter_unassigned_points l)).length =
        l.countP (fun x => x == -1)
  | [] => rfl
  | a :: l => by
    have ih := length_unassigned l
    rw [List.length_cons, List.range_succ_eq_map, List.filter_cons,
      filter_map_comm]
    have hsh : (List.filter (fun x => Filter_unassigned_points (a :: l) (x + 1))
        (List.range l.length)) = List.filter (Filter_unassigned_points l)
          (List.range l.length) := by
      apply List.filter_congr
      intro i _
      exact filter_shift a l i
    rw [hsh]
    have hP0 : Filter_unassigned_points (a :: l) 0 = (a == -1) := by
      rw [Filter_unassigned_points, if_pos (by simp)]
      rfl
    rw [List.countP_cons]
    by_cases ha : a = -1
    · rw [if_pos (by rw [hP0]; simp [ha])]
      simp only [List.length_cons, List.length_map, ih]
      simp [ha]
    · rw [if_neg (by rw [hP0]; simp [ha])]
      simp only [List.length_map, ih]
      simp [ha]

theorem countP_compl :
    ∀ l : List ℤ,
      l.countP (fun x => x == -1) + l.countP (fun x => !(x == -1)) = l.length
  | [] => rfl
  | a :: l => by
    have ih := countP_compl l
    rw [List.countP_cons, List.countP_cons, List.length_cons]
    by_cases ha : a = -1 <;> simp [ha] <;> omega

/-- C10: on a freshly constructed engine over a non-empty input, before
`detect` has run, the unassigned-point index view is empty (the counting range
is bounded by the size of the not-yet-initialised assignment map), while
`number_of_unassigned_points` returns the full input size `N`, so the two
accessors disagree; after a `detect` run with at least one registered kind
they agree. -/
theorem C10_accessors_before_detect (N : ℕ) (hN : 0 < N) :
    unassigned_points (constructedEngine N) = [] ∧
    number_of_unassigned_points (constructedEngine N) = N ∧
    (unassigned_points (constructedEngine N)).length ≠
      number_of_unassigned_points (constructedEngine N) ∧
    (∀ (env : DetectEnv) (opts : Parameters) (oracle : DetectOracle)
      (fuel gfuel : ℕ) (eng' : EngineState),
      env.N = N → ¬ env.F = 0 →
      detect env opts oracle fuel gfuel (constructedEngine N) = some eng' →
      (unassigned_points eng').length = number_of_unassigned_points eng') := by
  refine ⟨rfl, rfl, ?_, ?_⟩
  · show (0 : ℕ) ≠ N
    omega
  · intro env opts oracle fuel gfuel eng' hNN hF h
    obtain ⟨s1, hS1, hsi, _, hnum⟩ :=
      detect_sound env opts oracle fuel gfuel (constructedEngine N) eng' rfl hF h
    rw [unassigned_points, number_of_unassigned_points, hsi, hnum,
      length_unassigned]
    have hc := countP_compl s1.shapeIndex
    rw [hS1.2.1, hS1.1, hNN] at hc
    show s1.shapeIndex.countP (fun x => x == -1) = N - s1.numInvalid
    omega

/-- Closed instance of `C10_accessors_before_detect` at `N = 3`, with the
after-`detect` agreement discharged on the completed example run. -/
theorem C10_accessors_before_detect_witness :
    unassigned_points (constructedEngine 3) = [] ∧
    (unassigned_points exFinal).length = number_of_unassigned_points exFinal :=
  ⟨(C10_accessors_before_detect 3 (by decide)).1,
    (C10_accessors_before_detect 3 (by decide)).2.2.2 exEnv exOpts exOracle 2 2
      exFinal rfl (by decide) exRun⟩

theorem getD_set_gen {α : Type} (d : α) :
    ∀ (l : List α) (j i : ℕ) (v : α),
      (l.set j v).getD i d = if i = j ∧ j < l.length then v else l.getD i d
  | [], j, i, v => by simp
  | a :: l, 0, 0, v => by simp
  | a :: l, 0, i + 1, v => by simp
  | a :: l, j + 1, 0, v => by simp
  | a :: l, j + 1, i + 1, v => by
    have ih := getD_set_gen d l j i v
    simp only [List.set_cons_succ, List.getD_cons_succ, List.length_cons, ih]
    by_cases h : i = j ∧ j < l.length
    · rw [if_pos h, if_pos ⟨by omega, by omega⟩]
    · rw [if_neg h, if_neg (by omega)]

theorem take_set_ge {α : Type} :
    ∀ (l : List α) (n j : ℕ) (v : α), n ≤ j → (l.set j v).take n = l.take n
  | [], _, _, _, _ => by simp
  | _ :: _, 0, _, _, _ => by simp
  | _ :: _, n + 1, 0, _, h => by omega
  | a :: l, n + 1, j + 1, v, h => by
    simp only [List.set_cons_succ, List.take_succ_cons]
    rw [take_set_ge l n j v (by omega)]

theorem drop_set_last :
    ∀ (l : List (Option Candidate)) (x : Option Candidate),
      x ∈ (l.set (l.length - 1) none).drop (l.length - 1) → x = none
  | [], x, h => by simp at h
  | [a], x, h => by
    simp only [List.length_cons, List.length_nil] at h
    simp at h
    exact h
  | a :: b :: t, x, h => by
    apply drop_set_last (b :: t) x
    simp only [List.length_cons] at h ⊢
    simpa using h

theorem getD_isSome_mem (l : List (Option Candidate)) (j : ℕ)
    (h : (l.getD j none).isSome = true) : l.getD j none ∈ l := by
  by_cases hj : j < l.length
  · rw [List.getD_eq_getElem?_getD, List.getElem?_eq_getElem hj]
    exact List.getElem_mem hj
  · rw [List.getD_eq_getElem?_getD, List.getElem?_eq_none (by omega)] at h
    simp at h

theorem mem_take_succ_cases (l : List (Option Candidate)) (n : ℕ)
    (x : Option Candidate) (h : x ∈ l.take (n + 1)) :
    x ∈ l.take n ∨ (n < l.length ∧ x = l.getD n none) := by
  rw [List.take_succ] at h
  rcases List.mem_append.mp h with h1 | h1
  · exact Or.inl h1
  · by_cases hn : n < l.length
    · rw [List.getElem?_eq_getElem hn] at h1
      simp only [Option.toList_some, List.mem_singleton] at h1
      refine Or.inr ⟨hn, ?_⟩
      rw [List.getD_eq_getElem?_getD, List.getElem?_eq_getElem hn, h1]
      rfl
    · rw [List.getElem?_eq_none (by omega)] at h1
      simp at h1

theorem compactLoop_spec :
    ∀ (fuel : ℕ) (orig cands : List (Option Candidate)) (start e : ℕ),
      e + 1 - start ≤ fuel →
      (∀ x ∈ cands, x = none ∨ x ∈ orig) →
      (∀ x ∈ cands.take start, x ≠ none) →
      ∀ x ∈ ((compactLoop fuel cands start e).1).take (compactLoop fuel cands start e).2,
        x ≠ none ∧ x ∈ orig
  | 0, orig, cands, start, e, hfuel, hsub, hpre, x, hx => by
    rw [compactLoop] at hx
    have he : e ≤ start := by omega
    have hx1 : x ∈ (cands.take start).take e := by
      rw [List.take_take, min_eq_left he]
      exact hx
    have hx2 : x ∈ cands.take start := List.mem_of_mem_take hx1
    have hne := hpre x hx2
    rcases hsub x (List.mem_of_mem_take hx) with h | h
    · exact absurd h hne
    · exact ⟨hne, h⟩
  | fuel + 1, orig, cands, start, e, hfuel, hsub, hpre, x, hx => by
    rw [compactLoop] at hx
    split at hx
    · rename_i hlt
      split at hx
      · rename_i hsome
        refine compactLoop_spec fuel orig cands (start + 1) e (by omega) hsub ?_ x hx
        intro y hy
        rcases mem_take_succ_cases cands start y hy with h | h
        · exact hpre y h
        · rw [h.2]
          intro hc
          rw [hc] at hsome
          simp at hsome
      · rename_i hnone
        split at hx
        · rename_i hesome
          exact compactLoop_spec fuel orig cands start (e - 1) (by omega) hsub hpre x hx
        · rename_i hesome
          have hgesome : (cands.getD e none).isSome = true := by
            cases hg : cands.getD e none
            · rw [hg] at hesome; simp at hesome
            · simp
          have helen : e < cands.length := by
            by_contra hc
            rw [List.getD_eq_getElem?_getD, List.getElem?_eq_none (by omega)]
              at hgesome
            simp at hgesome
          have hstartlen : start < cands.length := by omega
          refine compactLoop_spec fuel orig
            ((cands.set start (cands.getD e none)).set e none) (start + 1) (e - 1)
            (by omega) ?_ ?_ x hx
          · intro y hy
            rcases List.mem_or_eq_of_mem_set hy with h | h
            · rcases List.mem_or_eq_of_mem_set h with h2 | h2
              · exact hsub y h2
              · rw [h2]
                exact hsub _ (getD_isSome_mem cands e hgesome)
            · exact Or.inl h
          · intro y hy
            rcases mem_take_succ_cases _ start y hy with h | h
            · rw [take_set_ge _ start e none (by omega),
                take_set_ge _ start start (cands.getD e none) (le_refl start)] at h
              exact hpre y h
            · rw [getD_set_gen, if_neg (by omega), getD_set_gen,
                if_pos ⟨rfl, by simpa using hstartlen⟩] at h
              rw [h.2]
              intro hc
              rw [hc] at hgesome
              simp at hgesome
    · have he : e ≤ start := by omega
      have hx1 : x ∈ (cands.take start).take e := by
        rw [List.take_take, min_eq_left he]
        exact hx
      have hx2 : x ∈ cands.take start := List.mem_of_mem_take hx1
      have hne := hpre x hx2
      rcases hsub x (List.mem_of_mem_take hx) with h | h
      · exact absurd h hne
      · exact ⟨hne, h⟩

/-- C4: in an outer iteration, the (rescored, connectivity-filtered) best
candidate is committed — appended to the extracted-shape list — exactly when
its overlook probability is at most `probability` and its filtered claim
holds at least `min_points` points.  On commit its claimed points are marked
with the new shape id, `numInvalid` grows by the claim size (so the available
count drops by it), and every entry surviving in the pool is some other
pooled candidate passed through `update_points` (now-assigned indices
dropped) and `compute_bound` against the new available count, entries whose
updated score falls under `min_points` having been discarded; otherwise no
shape is added. -/
theorem C4_commit_decision (env : DetectEnv) (opts : Parameters) (s : DetectState)
    (best : Candidate)
    (hun : ∀ i ∈ best.indices,
      i < s.shapeIndex.length ∧ s.shapeIndex.getD i (-1) = -1)
    (hcap : s.numInvalid + best.indices.length ≤ env.N) :
    ((commitStep env opts s best).extracted = s.extracted ++ [best] ↔
      (StopProbability best.expected (availCount env s) s.nbNew (env.maxLevel : ℚ)
          ≤ opts.probability ∧ opts.min_points ≤ best.indices.length)) ∧
    (¬ (StopProbability best.expected (availCount env s) s.nbNew (env.maxLevel : ℚ)
          ≤ opts.probability ∧ opts.min_points ≤ best.indices.length) →
      (commitStep env opts s best).extracted = s.extracted) ∧
    ((StopProbability best.expected (availCount env s) s.nbNew (env.maxLevel : ℚ)
          ≤ opts.probability ∧ opts.min_points ≤ best.indices.length) →
      (∀ i ∈ best.indices,
        (commitStep env opts s best).shapeIndex.getD i (-1) =
          (s.extracted.length : ℤ)) ∧
      (commitStep env opts s best).numInvalid =
        s.numInvalid + best.indices.length ∧
      availCount env (commitStep env opts s best) + best.indices.length =
        availCount env s ∧
      (∀ x ∈ (commitStep env opts s best).pool,
        x ≠ none ∧
        ∃ c : Candidate, some c ∈ s.pool.take (s.pool.length - 1) ∧
          x = updateEntry (commitStep env opts s best).shapeIndex
            (prefixSums (commitStep env opts s best).availSizes)
            (availCount env (commitStep env opts s best)) opts.min_points
            (some c))) := by
  by_cases hstop : StopProbability best.expected (availCount env s) s.nbNew
      (env.maxLevel : ℚ) ≤ opts.probability
  · by_cases hsize : opts.min_points ≤ best.indices.length
    · simp only [commitStep]
      rw [if_pos hstop, if_pos hsize]
      dsimp only
      refine ⟨?_, ?_, ?_⟩
      · exact ⟨fun _ => ⟨hstop, hsize⟩, fun _ => rfl⟩
      · intro hc
        exact absurd ⟨hstop, hsize⟩ hc
      · intro _
        refine ⟨?_, rfl, ?_, ?_⟩
        · intro i hi
          rw [markAssigned_getD, if_pos ⟨hi, (hun i hi).1⟩]
        · simp only [availCount]
          omega
        · intro x hx
          have hc := compactLoop_spec _ _ _ 0 _ (by omega)
            (fun y hy => Or.inr hy) (by intro y hy; simp at hy) x hx
          refine ⟨hc.1, ?_⟩
          rcases List.mem_append.mp hc.2 with hm | hm
          · obtain ⟨y, hy, hxy⟩ := List.mem_map.mp hm
            rw [List.length_set, take_set_ge s.pool (s.pool.length - 1)
              (s.pool.length - 1) none (le_refl _)] at hy
            cases y with
            | none =>
              rw [← hxy] at hc
              exact absurd rfl hc.1
            | some c => exact ⟨c, hy, hxy.symm⟩
          · rw [List.length_set] at hm
            exact absurd (drop_set_last s.pool x hm) hc.1
    · simp only [commitStep]
      rw [if_pos hstop, if_neg hsize]
      dsimp only
      refine ⟨iff_of_false (by simp) (by tauto), fun _ => rfl,
        fun h => absurd h.2 hsize⟩
  · simp only [commitStep]
    rw [if_neg hstop]
    refine ⟨iff_of_false (by simp) (by tauto), fun _ => rfl,
      fun h => absurd h.1 hstop⟩

/-- Closed instance of `C4_commit_decision`: on the example pool state the
best candidate is committed, since its overlook probability is under the
threshold and its claim is large enough. -/
theorem C4_commit_decision_witness :
    (commitStep exEnv exOpts exPoolState exBest).extracted =
      exPoolState.extracted ++ [exBest] :=
  (C4_commit_decision exEnv exOpts exPoolState exBest (by decide) (by decide)).1.mpr
    ⟨by norm_num [StopProbability, availCount, exPoolState, exBest, exEnv, exOpts],
     by decide⟩

end CGAL


